import Mathlib

/-!
Verification of the navigation/selection engine of `panel/widgets/file_selector.py`.

The Python module is shallowly embedded below.  The ambient operating-system
filesystem (`os.listdir`, `os.path.isdir`, `os.path.isfile`, `os.path.islink`,
`os.path.realpath`) is modelled by an explicit record of functions `FS`; pure
path helpers (`os.path.join`, `os.path.basename`, `os.path.relpath`,
`str.startswith`, `fnmatch.fnmatch`, `sorted`) are translated directly.  The
path normalisers `panel.util.fullpath` and `provider.normalize` delegate to the
OS (home-expansion, cwd resolution), so they appear as function parameters of
the widget context; theorems that depend on their behaviour carry explicit
hypotheses (idempotence, stability of the root) which hold for the real
functions on normalised absolute paths.
-/

namespace FileSelectorSpec

/-! ## Python string / path primitives -/

/-- Python `str.startswith(pre)`: `pre` is a literal prefix of `s`. -/
def pyStartswith (s pre : String) : Bool := List.isPrefixOf pre.data s.data

/-- Lexicographic (code-point) comparison on character lists, as Python's
`<=` on `str` behaves. -/
def lexLe : List Char → List Char → Bool
  | [], _ => true
  | _ :: _, [] => false
  | a :: as, b :: bs => if a = b then lexLe as bs else decide (a < b)

/-- Python `<=` on strings (code-point lexicographic). -/
def pyLe (a b : String) : Bool := lexLe a.data b.data

/-- Insertion of an element into an already sorted list (helper of
`pysorted`). -/
def insertSorted (a : String) : List String → List String
  | [] => [a]
  | b :: bs => if pyLe a b then a :: b :: bs else b :: insertSorted a bs

/-- Python `sorted` on a list of strings.  Strings are totally ordered, so
insertion sort produces the same list as any correct sort. -/
def pysorted : List String → List String
  | [] => []
  | a :: as => insertSorted a (pysorted as)

/-- Characters of the basename: everything after the last `/` (helper of
`basename`). -/
def basenameAux : List Char → List Char
  | l => l.foldl (fun acc c => if c = '/' then [] else acc ++ [c]) []

/-- `os.path.basename`: the part of the path after the last slash. -/
def basename (p : String) : String := ⟨basenameAux p.data⟩

/-- Whether a string ends with a slash (helper of `pyJoin`). -/
def endsWithSlash (s : String) : Bool := List.isSuffixOf ['/'] s.data

/-- `os.path.join(a, b)` for POSIX paths: an absolute `b` wins, otherwise the
components are joined with a single separator. -/
def pyJoin (a b : String) : String :=
  if pyStartswith b "/" then b
  else if a = "" then b
  else if endsWithSlash a then a ++ b
  else a ++ "/" ++ b

/-- Split a character list at `/` (helper of `segsOf`). -/
def splitOnSlash : List Char → List (List Char)
  | [] => [[]]
  | c :: rest =>
    if c = '/' then [] :: splitOnSlash rest
    else
      match splitOnSlash rest with
      | [] => [[c]]
      | seg :: segs => (c :: seg) :: segs

/-- The non-empty path segments of a (normalised) path string. -/
def segsOf (p : String) : List String :=
  ((splitOnSlash p.data).filter (fun l => l ≠ [])).map (fun l => ⟨l⟩)

/-- Length of the common prefix of two segment lists (helper of `relpath`). -/
def commonLen : List String → List String → Nat
  | a :: as, b :: bs => if a = b then commonLen as bs + 1 else 0
  | _, _ => 0

/-- `os.path.relpath(path, start)` for normalised absolute POSIX paths:
climb out of `start`'s extra segments with `..` and descend into `path`'s. -/
def relpath (path start : String) : String :=
  let pl := segsOf path
  let sl := segsOf start
  let i := commonLen sl pl
  let rel := List.replicate (sl.length - i) ".." ++ pl.drop i
  if rel = [] then "." else String.intercalate "/" rel

/-! ## `fnmatch.fnmatch`

Glob matching as `fnmatch.translate` defines it on POSIX: `*` matches any
sequence, `?` any single character, `[...]`/`[!...]` a (negated) character
class with ranges, a `]` directly after the (possibly negated) opening
bracket is a literal member, and an unterminated `[` is a literal character.
The recursion is structural on the pattern: every recursive call consumes at
least one pattern character, so the whole match is defined by recursion on a
fuel bounded by the pattern length. -/

/-- Scan a class body up to the closing `]`, returning the member characters
and the rest of the pattern (helper of `splitClass`). -/
def splitClassAux : List Char → Option (List Char × List Char)
  | [] => none
  | c :: rest =>
    if c = ']' then some ([], rest)
    else (splitClassAux rest).map (fun p => (c :: p.1, p.2))

/-- Extract a bracketed class body; a leading `]` is a literal member. -/
def splitClass : List Char → Option (List Char × List Char)
  | ']' :: rest => (splitClassAux rest).map (fun p => (']' :: p.1, p.2))
  | l => splitClassAux l

/-- Whether character `c` is matched by the class body (with `a-b` ranges;
a trailing or leading `-` is literal). -/
def classMatch : List Char → Char → Bool
  | a :: '-' :: b :: rest, c =>
    (decide (a ≤ c) && decide (c ≤ b)) || classMatch rest c
  | a :: rest, c => (a = c) || classMatch rest c
  | [], _ => false

/-- One step of glob matching; `fuel` strictly exceeds the pattern length,
and every recursive call consumes at least one pattern character. -/
def fnmatchFuel : Nat → List Char → List Char → Bool
  | 0, _, _ => false
  | fuel + 1, p, s =>
    match p with
    | [] => s.isEmpty
    | '*' :: ps => (List.range (s.length + 1)).any (fun i => fnmatchFuel fuel ps (s.drop i))
    | '?' :: ps =>
      match s with
      | [] => false
      | _ :: cs => fnmatchFuel fuel ps cs
    | '[' :: ps =>
      let (neg, body) :=
        match ps with
        | '!' :: ps2 => (true, splitClass ps2)
        | _ => (false, splitClass ps)
      match body with
      | some (items, rest) =>
        match s with
        | [] => false
        | c :: cs =>
          (if neg then !(classMatch items c) else classMatch items c) && fnmatchFuel fuel rest cs
      | none =>
        match s with
        | c :: cs => (c = '[') && fnmatchFuel fuel ps cs
        | [] => false
    | c :: ps =>
      match s with
      | d :: ds => (c = d) && fnmatchFuel fuel ps ds
      | [] => false

/-- `fnmatch.fnmatch(name, pat)` (case-sensitive POSIX behaviour). -/
def pyFnmatch (name pat : String) : Bool :=
  fnmatchFuel (pat.length + 1) pat.data name.data

/-! ## The filesystem model and `_scan_path` -/

/-- The ambient operating-system filesystem as seen through the `os` calls
used by the module.  `isdir`/`isfile` follow symbolic links, as the Python
functions do. -/
structure FS where
  listdir : String → List String
  isdir : String → Bool
  isfile : String → Bool
  islink : String → Bool
  realpath : String → String

/-- `_scan_path(path, file_pattern)`: direct children split into directories
and pattern-matching files, with an extra pass appending symbolic links whose
resolved target is a directory — or a file — to the directory list. -/
def scanPath (fs : FS) (path : String) (filePattern : String) : List String × List String :=
  let paths := (fs.listdir path).map (fun p => pyJoin path p)
  let dirs := paths.filter (fun p => fs.isdir p)
  let files := paths.filter (fun p => fs.isfile p && pyFnmatch (basename p) filePattern)
  let dirs := paths.foldl (fun ds p =>
    if fs.islink p = false then ds
    else
      let rp := fs.realpath p
      if fs.isdir rp then ds ++ [p]
      else if fs.isfile rp then ds ++ [p]
      else ds) dirs
  (dirs, files)

/-- `LocalFileProvider.ls(path, file_pattern)`: empty listing for a
non-directory, otherwise `_scan_path`. -/
def providerLs (fs : FS) (path : String) (filePattern : String) : List String × List String :=
  if fs.isdir path = false then ([], [])
  else scanPath fs path filePattern

/-! ## Provider construction (`BaseFileProvider.from_filesystem`) -/

/-- A Python object passed as the `fs` argument, abstracted to the features
the dispatch inspects: whether it is an instance of fsspec's
`AbstractFileSystem`, which of the remote-capability methods it exposes, and
the printed name of its type. -/
structure PyObj where
  isAbstractFileSystem : Bool
  hasLs : Bool
  hasGlob : Bool
  hasIsdir : Bool
  typeName : String

/-- The `fs` argument of the widget constructors: `None` or some object. -/
inductive FSArg where
  | noFs
  | obj (o : PyObj)

/-- The provider chosen by `BaseFileProvider.from_filesystem`. -/
inductive Provider where
  | localProvider
  | remoteProvider (o : PyObj)

/-- `BaseFileProvider.from_filesystem(fs)`: `None` gives the local provider;
an `AbstractFileSystem` instance (when fsspec is importable) gives the remote
provider; anything else raises `ValueError` naming the offending type. -/
def fromFilesystem (fsspecInstalled : Bool) : FSArg → Except String Provider
  | .noFs => .ok .localProvider
  | .obj o =>
    if fsspecInstalled && o.isAbstractFileSystem then .ok (.remoteProvider o)
    else .error ("Unsupported filesystem type: " ++ o.typeName)

/-- The state `BaseFileSelector.__init__` builds after the provider was
constructed successfully. -/
structure BaseSelectorState where
  provider : Provider
  directory : Option String
  root_directory : Option String

/-- `BaseFileSelector.__init__`: the provider is constructed first, so an
unsupported backend raises before any parameter state is built; otherwise the
`directory` and `root_directory` parameters are normalised by the provider
(`normalizeOf` stands for the provider's `normalize`, which is ambient OS
behaviour for the local provider and the identity for the base class). -/
def baseFileSelectorInit (fsspecInstalled : Bool) (fsArg : FSArg)
    (normalizeOf : Provider → String → String)
    (directory : Option String) (root_directory : Option String) :
    Except String BaseSelectorState :=
  match fromFilesystem fsspecInstalled fsArg with
  | .error e => .error e
  | .ok prov =>
    .ok { provider := prov
          directory := directory.map (normalizeOf prov)
          root_directory := root_directory.map (normalizeOf prov) }

/-- The spec's words for the remote-filesystem capability: the object offers
`ls`, `glob` and `isdir` methods.  Stated separately from the source so the
dispatch of `from_filesystem` can be compared against it. -/
def hasRemoteCapability (o : PyObj) : Bool := o.hasLs && o.hasGlob && o.hasIsdir

/-! ## The `FileSelector` widget state machine -/

/-- What triggered `_update_files` (`event` argument): the initial call in
`__init__`, the go button, or the reload button; `none` models `event=None`. -/
inductive Trigger where
  | initial
  | go
  | reload
deriving DecidableEq

/-- The mutable state of a `FileSelector`: the text-input value, the current
working directory `_cwd`, the history `_stack` with `_position`, the
enablement of the navigation buttons, the selector options (an association
list modelling the Python `dict` from displayed label to path) and the
selected `value`. -/
structure WState where
  directoryValue : String
  cwd : String
  stack : List String
  position : Int
  backDisabled : Bool
  forwardDisabled : Bool
  upDisabled : Bool
  goDisabled : Bool
  options : List (String × String)
  selectorDisabled : Bool
  value : List String

/-- The widget configuration together with the ambient OS: the filesystem,
`panel.util.fullpath` and the provider's `normalize` (kept abstract, they
resolve against the process environment), the resolved root directory
(`_root_directory`, i.e. `root_directory or directory`), the glob pattern and
the display flags. -/
structure Ctx where
  fs : FS
  fullpath : String → String
  normalize : String → String
  rootDirectory : String
  filePattern : String
  showHidden : Bool
  onlyFiles : Bool

/-- `FileSelector._dir_change`, unrolled through the synchronous re-firing of
the `_directory.value` watcher: a value whose normalisation does not start
with the root is reset to the root (re-firing the watcher); a value differing
from its normalisation is replaced by it (re-firing the watcher, then the go
button is set again); otherwise the go button is disabled exactly when the
path equals `_cwd`.  Each re-fire consumes one unit of fuel; the watcher does
not re-fire when the assigned value is unchanged. -/
def dirChangeFuel (c : Ctx) : Nat → WState → WState
  | 0, s => s
  | n + 1, s =>
    let path := c.fullpath s.directoryValue
    if pyStartswith path c.rootDirectory = false then
      if s.directoryValue = c.rootDirectory then s
      else dirChangeFuel c n { s with directoryValue := c.rootDirectory }
    else if path ≠ s.directoryValue then
      let s' := dirChangeFuel c n { s with directoryValue := path }
      { s' with goDisabled := (path = s'.cwd) }
    else
      { s with goDisabled := (path = s.cwd) }

/-- `_dir_change` with enough fuel for every chain of watcher re-fires that
terminates (under an idempotent `fullpath` at most two fire). -/
def dirChange (c : Ctx) (s : WState) : WState := dirChangeFuel c 4 s

/-- The sentinel option shown for an invalid directory. -/
def invalidMsg : String := "Entered path is not valid"

/-- The folder marker prepended to directory labels. -/
def folderGlyph : String := "📁"

/-- The label of the ascend pseudo-entry. -/
def upLabel : String := "⬆ .."

/-- Reclassification of the previously selected paths (the `for s in
selected` loop of `_update_files`): each selected path — resolved through
`realpath` when it is a symbolic link — is appended to the directory or file
list according to what it is on disk. -/
def reconcile (fs : FS) (selected : List String) (dirs files : List String) :
    List String × List String :=
  selected.foldl (fun df s =>
    let check := if fs.islink s then fs.realpath s else s
    if fs.isdir check then (df.1 ++ [s], df.2)
    else if fs.isfile check then (df.1, df.2 ++ [s])
    else df) (dirs, files)

/-- Python `dict` update: overwrite the value of an existing key in place,
otherwise append the pair. -/
def dictInsert (m : List (String × String)) (kv : String × String) :
    List (String × String) :=
  if m.any (fun p => p.1 = kv.1) then
    m.map (fun p => if p.1 = kv.1 then (p.1, kv.2) else p)
  else m ++ [kv]

/-- Python `dict(pairs)`: later pairs overwrite earlier values of the same
key. -/
def dictOf (l : List (String × String)) : List (String × String) :=
  l.foldl dictInsert []

/-- The (label, path) pairs produced by the listing part of `_update_files`:
provider listing, reclassified selection, independent sorts, hidden-file
filter, folder-marked relative labels, and the ascend pseudo-entry when not
at the root. -/
def listingPairs (c : Ctx) (path : String) (selected : List String) :
    List (String × String) :=
  let df := providerLs c.fs path c.filePattern
  let df := reconcile c.fs selected df.1 df.2
  let paths := (pysorted df.1 ++ pysorted df.2).filter
    (fun p => c.showHidden || !(pyStartswith (basename p) "."))
  let abbreviated := paths.map
    (fun f => (if df.1.contains f then folderGlyph else "") ++ relpath f path)
  let upDis := (path = c.rootDirectory)
  let paths := if upDis then paths else ".." :: paths
  let abbreviated := if upDis then abbreviated else upLabel :: abbreviated
  abbreviated.zip paths

/-- The tail of `_update_files` after the history bookkeeping: set `_cwd`,
update the button enablement (note all three updates are one-directional) and
install the listing as the selector options. -/
def listingTail (c : Ctx) (refresh : Bool) (path : String) (s : WState) : WState :=
  let s := { s with cwd := path }
  let s := if refresh then s else { s with goDisabled := true }
  let s := { s with upDisabled := (path = c.rootDirectory) }
  let s := if s.position = (s.stack.length : Int) - 1 then { s with forwardDisabled := true } else s
  let s := if 0 ≤ s.position ∧ 1 < s.stack.length then { s with backDisabled := false } else s
  { s with options := dictOf (listingPairs c path s.value) }

/-- `FileSelector._update_files(event, refresh)`: a refresh (explicit flag,
or the reload button as event source) re-lists `_cwd` without touching the
history; a non-directory target shows the sentinel and disables the selector;
a fresh directory (with an event) is pushed onto the history stack advancing
the position; then the listing tail runs. -/
def updateFiles (c : Ctx) (event : Option Trigger) (refresh0 : Bool) (s : WState) : WState :=
  let path := c.normalize s.directoryValue
  let refresh := refresh0 || (event = some Trigger.reload)
  if refresh then
    listingTail c refresh s.cwd s
  else if c.fs.isdir path = false then
    { s with options := [(invalidMsg, invalidMsg)], selectorDisabled := true }
  else
    let s :=
      if event ≠ none ∧ (s.stack = [] ∨ path ≠ s.stack.getLast?.getD "") then
        { s with stack := s.stack ++ [path], position := s.position + 1 }
      else s
    listingTail c refresh path s

/-- Python negative indexing into `_stack` (total model: out-of-range reads
default to `""`; every use below is guarded in range). -/
def pyIndex (l : List String) (i : Int) : String :=
  if 0 ≤ i then l.getD i.toNat "" else l.getD (l.length - (-i).toNat) ""

/-- Typing a path into the directory input and pressing the go button: the
`_dir_change` watcher fires when the value changes, and the (enabled) go
button triggers `_update_files`. -/
def navigate (c : Ctx) (p : String) (s : WState) : WState :=
  let s := if p ≠ s.directoryValue then dirChange c { s with directoryValue := p } else s
  if s.goDisabled then s else updateFiles c (some Trigger.go) false s

/-- `FileSelector._go_back`: step the position back, put the target into the
directory input (firing `_dir_change` when the value changes), re-list, then
re-enable forward and disable back at the bottom. -/
def goBack (c : Ctx) (s : WState) : WState :=
  let s := { s with position := s.position - 1 }
  let tgt := pyIndex s.stack s.position
  let s := if tgt ≠ s.directoryValue then dirChange c { s with directoryValue := tgt } else s
  let s := updateFiles c none false s
  let s := { s with forwardDisabled := false }
  if s.position = 0 then { s with backDisabled := true } else s

/-- `FileSelector._go_forward`: step the position forward, put the target
into the directory input (firing `_dir_change` when the value changes) and
re-list. -/
def goForward (c : Ctx) (s : WState) : WState :=
  let s := { s with position := s.position + 1 }
  let tgt := pyIndex s.stack s.position
  let s := if tgt ≠ s.directoryValue then dirChange c { s with directoryValue := tgt } else s
  updateFiles c none false s

/-- A user interaction with the navigation bar. -/
inductive NavAction where
  | navigateTo (p : String)
  | back
  | forward

/-- One interaction step; the back/forward buttons do not fire while
disabled. -/
def step (c : Ctx) (s : WState) : NavAction → WState
  | .navigateTo p => navigate c p s
  | .back => if s.backDisabled then s else goBack c s
  | .forward => if s.forwardDisabled then s else goForward c s

/-- A sequence of interactions. -/
def run (c : Ctx) (s : WState) : List NavAction → WState :=
  fun acts => acts.foldl (step c) s

/-- The widget state as `FileSelector.__init__` leaves it: text input holding
the normalised `directory` parameter, empty history, position `-1`, back and
forward buttons disabled, then the initial `_update_files(True)` call. -/
def initState (c : Ctx) (d : String) : WState :=
  let s0 : WState :=
    { directoryValue := c.normalize d
      cwd := ""
      stack := []
      position := -1
      backDisabled := true
      forwardDisabled := true
      upDisabled := true
      goDisabled := true
      options := []
      selectorDisabled := false
      value := [] }
  updateFiles c (some Trigger.initial) false s0

/-- `FileSelector._update_value`: drop the ascend pseudo-entry and, when
`only_files` is set, every path that is not a plain file (`os.path.isfile`). -/
def updateValue (c : Ctx) (new : List String) : List String :=
  new.filter (fun v => v ≠ ".." && (!c.onlyFiles || c.fs.isfile v))

/-- The spec's notion of a path lying outside the root directory: it is
neither the root itself nor below it in the directory tree.  Stated from the
spec's words, to be compared with the string-prefix test the code performs. -/
def specOutsideRoot (root p : String) : Bool :=
  !(p = root || pyStartswith p (root ++ "/"))

/-! ## The `FileTree` tree indexer -/

/-- A jsTree node as `_to_json` builds it: id (the path), display label,
parent id, node type (`"folder"`/`"file"`), the disabled state flag, and the
children (`none` models the Python `children=None`, i.e. not expanded). -/
inductive TreeNode where
  | node (nid label parent typ : String) (disabled : Bool)
      (children : Option (List TreeNode))

/-- The id of a tree node. -/
def TreeNode.nid : TreeNode → String
  | .node i _ _ _ _ _ => i

/-- The type tag of a tree node. -/
def TreeNode.typ : TreeNode → String
  | .node _ _ _ t _ _ => t

/-- The disabled flag of a tree node. -/
def TreeNode.disabled : TreeNode → Bool
  | .node _ _ _ _ d _ => d

/-- The children of a tree node (`none` when unexpanded). -/
def TreeNode.children : TreeNode → Option (List TreeNode)
  | .node _ _ _ _ _ c => c

/-- `len(Path(path).relative_to(root).parents)` for a path below `root`: the
number of extra segments of `path`. -/
def relDepth (root path : String) : Nat :=
  (segsOf path).length - (segsOf root).length

/-- `FileTree._exceed_max_depth(path)`: never with `max_depth=0`, otherwise
when the depth of `path` relative to the tree's directory reaches
`max_depth`. -/
def exceedMaxDepth (maxDepth : Nat) (rootDir path : String) : Bool :=
  if maxDepth = 0 then false
  else decide (relDepth rootDir path ≥ maxDepth)

/-- `FileTree._get_paths(directory, children_to_skip)`: provider listing with
the default `[!.]*` file pattern, directories filtered of dotfile basenames
and skipped ids, files filtered of skipped ids, both sorted. -/
def getPaths (fs : FS) (directory : String) (childrenToSkip : List String) :
    List String × List String :=
  let df := providerLs fs directory "[!.]*"
  let dirs := df.1.filter
    (fun d => !(pyStartswith (basename d) ".") && !(childrenToSkip.contains d))
  let files := df.2.filter (fun f => !(childrenToSkip.contains f))
  (pysorted dirs, pysorted files)

/-- `FileTree._get_children(text, directory, depth, children_to_skip)`: a
directory exceeding the depth cap yields no children; otherwise each listed
subdirectory becomes a folder node (recursively expanded one level per unit
of remaining depth, and marked disabled when it exceeds the cap) and each
listed file a leaf node.  The `text` argument is carried but unused, as in
the source. -/
def getChildren (fs : FS) (maxDepth : Nat) (rootDir : String)
    (text directory : String) (depth : Nat) (childrenToSkip : List String) :
    List TreeNode :=
  if exceedMaxDepth maxDepth rootDir directory then []
  else
    let parent := directory
    let df := getPaths fs directory childrenToSkip
    let dirNodes := df.1.map (fun subdir =>
      let children : Option (List TreeNode) :=
        match depth with
        | 0 => none
        | d + 1 => some (getChildren fs maxDepth rootDir (basename subdir) subdir d [])
      TreeNode.node subdir (basename subdir) parent "folder"
        (exceedMaxDepth maxDepth rootDir subdir) children)
    let fileNodes := df.2.map (fun subfile =>
      TreeNode.node subfile (basename subfile) parent "file" false none)
    dirNodes ++ fileNodes

/-- `FileTree._set_data_from_directory`: the root node, open, with its
children eagerly expanded to depth 1.  The root node dictionary has no parent
key, modelled as the empty string. -/
def setDataFromDirectory (fs : FS) (normalize : String → String)
    (maxDepth : Nat) (directory : String) : List TreeNode :=
  [TreeNode.node (normalize directory) (basename directory) "" "folder" false
    (some (getChildren fs maxDepth directory (basename directory) directory 1 []))]

/-- The value filter of `FileTree._process_property_change`: when
`only_files` is set, keep only the node ids whose indexed type is `"file"`
(`index` models `self._index` lookup, `none` for a missing id). -/
def processPropertyChangeValue (index : String → Option String) (onlyFiles : Bool)
    (value : List String) : List String :=
  if onlyFiles then value.filter (fun nid => index nid = some "file")
  else value

/-! ## Concrete fixtures

Small concrete filesystems and widget contexts used by the witnesses and
counterexamples.  Paths are already-normalised absolute POSIX paths, so the
concrete `fullpath`/`normalize` functions are the identity. -/

/-- A filesystem with root `/r` and two sibling directories, all empty. -/
def fsNav : FS :=
  { listdir := fun _ => []
    isdir := fun p => ["/r", "/r/b", "/r/c", "/r/sub"].contains p
    isfile := fun _ => false
    islink := fun _ => false
    realpath := fun p => p }

/-- Widget context over `fsNav`, rooted at `/r`. -/
def ctxNav : Ctx :=
  { fs := fsNav
    fullpath := id
    normalize := id
    rootDirectory := "/r"
    filePattern := "*"
    showHidden := false
    onlyFiles := false }

/-- A filesystem with directories `/data` and `/datax`: `/datax` is outside
the `/data` tree but shares `/data` as a string prefix. -/
def fsClamp : FS :=
  { listdir := fun _ => []
    isdir := fun p => ["/data", "/datax", "/data/sub"].contains p
    isfile := fun _ => false
    islink := fun _ => false
    realpath := fun p => p }

/-- Widget context over `fsClamp`, rooted at `/data`. -/
def ctxClamp : Ctx :=
  { fs := fsClamp
    fullpath := id
    normalize := id
    rootDirectory := "/data"
    filePattern := "*"
    showHidden := false
    onlyFiles := false }

/-- A filesystem where `/data` holds a directory `x` (not listed, standing
for a selection made elsewhere it is on disk), a directory `sub`, and a file
whose name is the folder glyph followed by `x`. -/
def fsGlyph : FS :=
  { listdir := fun p => if p = "/data" then ["📁x"] else []
    isdir := fun p => ["/data", "/data/x", "/data/sub"].contains p
    isfile := fun p => p = "/data/📁x"
    islink := fun _ => false
    realpath := fun p => p }

/-- Widget context over `fsGlyph`, rooted at `/data`. -/
def ctxGlyph : Ctx :=
  { fs := fsGlyph
    fullpath := id
    normalize := id
    rootDirectory := "/data"
    filePattern := "*"
    showHidden := false
    onlyFiles := false }

/-- A filesystem where `/data` holds a plain subdirectory, a plain file, a
symbolic link to a directory and a symbolic link to a file. -/
def fsLinks : FS :=
  { listdir := fun p => if p = "/data" then ["a.txt", "linkd", "linkf", "sub"] else []
    isdir := fun p => ["/data", "/data/sub", "/data/linkd", "/target/dir"].contains p
    isfile := fun p => ["/data/a.txt", "/data/linkf", "/target/file.txt"].contains p
    islink := fun p => ["/data/linkd", "/data/linkf"].contains p
    realpath := fun p =>
      if p = "/data/linkd" then "/target/dir"
      else if p = "/data/linkf" then "/target/file.txt"
      else p }

/-- A filesystem for the tree scenario: `/data` contains `sub/`, which
contains `deep/` and a file. -/
def fsTree : FS :=
  { listdir := fun p =>
      if p = "/data" then ["sub"]
      else if p = "/data/sub" then ["deep", "f.txt"]
      else []
    isdir := fun p => ["/data", "/data/sub", "/data/sub/deep"].contains p
    isfile := fun p => p = "/data/sub/f.txt"
    islink := fun _ => false
    realpath := fun p => p }

/-! ## Generic lemmas about the helpers -/

theorem mem_insertSorted {x a : String} {l : List String} :
    x ∈ insertSorted a l ↔ x = a ∨ x ∈ l := by
  induction l with
  | nil => simp [insertSorted]
  | cons b bs ih =>
    by_cases h : pyLe a b = true
    · simp [insertSorted, h]
    · simp only [insertSorted, h, if_neg]
      simp [ih]
      tauto

theorem mem_pysorted {x : String} {l : List String} :
    x ∈ pysorted l ↔ x ∈ l := by
  induction l with
  | nil => simp [pysorted]
  | cons a as ih => simp [pysorted, mem_insertSorted, ih]

theorem dictInsert_values_subset {v : String} {m : List (String × String)}
    {kv : String × String} (h : v ∈ (dictInsert m kv).map Prod.snd) :
    v ∈ m.map Prod.snd ∨ v = kv.2 := by
  unfold dictInsert at h
  split at h
  · simp only [List.map_map, List.mem_map] at h
    obtain ⟨p, hp, hv⟩ := h
    dsimp at hv
    split at hv
    · right; exact hv.symm
    · left; exact List.mem_map.mpr ⟨p, hp, hv⟩
  · simp only [List.map_append, List.mem_append, List.map_cons, List.map_nil,
      List.mem_singleton] at h
    tauto

theorem dictOf_foldl_values_subset {v : String} (l : List (String × String)) :
    ∀ acc : List (String × String), v ∈ (l.foldl dictInsert acc).map Prod.snd →
      v ∈ acc.map Prod.snd ∨ v ∈ l.map Prod.snd := by
  induction l with
  | nil => intro acc h'; exact Or.inl h'
  | cons kv rest ih =>
    intro acc h'
    rcases ih (dictInsert acc kv) h' with h'' | h''
    · rcases dictInsert_values_subset h'' with h3 | h3
      · exact Or.inl h3
      · right; simp [h3]
    · right; simp [h'']

theorem dictOf_values_subset {v : String} {l : List (String × String)}
    (h : v ∈ (dictOf l).map Prod.snd) : v ∈ l.map Prod.snd := by
  rcases dictOf_foldl_values_subset l [] h with h' | h'
  · simp at h'
  · exact h'

theorem mem_dictInsert_self {k v : String} {m : List (String × String)} :
    (k, v) ∈ dictInsert m (k, v) := by
  unfold dictInsert
  split
  · rename_i hany
    simp only [List.any_eq_true, decide_eq_true_eq] at hany
    obtain ⟨p, hp, hk⟩ := hany
    refine List.mem_map.mpr ⟨p, hp, ?_⟩
    simp [hk]
  · simp

theorem mem_dictInsert_preserved {k v : String} {m : List (String × String)}
    {kv : String × String} (h : (k, v) ∈ m) (hkv : kv.1 = k → kv.2 = v) :
    (k, v) ∈ dictInsert m kv := by
  unfold dictInsert
  split
  · refine List.mem_map.mpr ⟨(k, v), h, ?_⟩
    split
    · rename_i hk; rw [hkv hk.symm]
    · rfl
  · exact List.mem_append_left _ h

theorem dictInsert_uniq_preserved {k v : String} {m : List (String × String)}
    {kv : String × String} (huniq : ∀ p ∈ m, p.1 = k → p.2 = v)
    (hkv : kv.1 = k → kv.2 = v) :
    ∀ p ∈ dictInsert m kv, p.1 = k → p.2 = v := by
  intro p hp hpk
  unfold dictInsert at hp
  split at hp
  · obtain ⟨q, hq, hqp⟩ := List.mem_map.mp hp
    split at hqp
    · rename_i hqk
      rw [← hqp] at hpk ⊢
      exact hkv (hqk.symm.trans hpk)
    · rw [← hqp] at hpk ⊢
      exact huniq q hq hpk
  · rcases List.mem_append.mp hp with h' | h'
    · exact huniq p h' hpk
    · simp only [List.mem_singleton] at h'
      rw [h'] at hpk ⊢
      exact hkv hpk

theorem dictOf_foldl_mem {k v : String} (l : List (String × String)) :
    ∀ acc : List (String × String),
      (∀ p ∈ acc, p.1 = k → p.2 = v) → (∀ p ∈ l, p.1 = k → p.2 = v) →
      ((k, v) ∈ acc ∨ (k, v) ∈ l) → (k, v) ∈ l.foldl dictInsert acc := by
  induction l with
  | nil =>
    intro acc _ _ hmem
    simpa using hmem.resolve_right (by simp)
  | cons kv rest ih =>
    intro acc haccU hlU hmem
    have hkv : kv.1 = k → kv.2 = v := fun h => hlU kv (by simp) h
    have haccU' : ∀ p ∈ dictInsert acc kv, p.1 = k → p.2 = v :=
      dictInsert_uniq_preserved haccU hkv
    have hrestU : ∀ p ∈ rest, p.1 = k → p.2 = v := fun p hp => hlU p (by simp [hp])
    refine ih (dictInsert acc kv) haccU' hrestU ?_
    rcases hmem with h | h
    · exact Or.inl (mem_dictInsert_preserved h hkv)
    · rcases List.mem_cons.mp h with h' | h'
      · left
        rw [← h']
        rw [← h'] at hkv
        have : kv = (k, kv.2) := by
          rw [← h']
        rw [h']
        exact mem_dictInsert_self
      · exact Or.inr h'

theorem dictOf_mem_values_of_unique {k v : String} {l : List (String × String)}
    (hmem : (k, v) ∈ l) (huniq : ∀ p ∈ l, p.1 = k → p.2 = v) :
    v ∈ (dictOf l).map Prod.snd := by
  have h := dictOf_foldl_mem l [] (by simp) huniq (Or.inr hmem)
  exact List.mem_map.mpr ⟨(k, v), h, rfl⟩

/-! ## Frame lemmas for the state machine -/

theorem listingTail_frame (c : Ctx) (r : Bool) (p : String) (s : WState) :
    (listingTail c r p s).stack = s.stack ∧
    (listingTail c r p s).position = s.position ∧
    (listingTail c r p s).cwd = p ∧
    (listingTail c r p s).value = s.value ∧
    (listingTail c r p s).directoryValue = s.directoryValue := by
  unfold listingTail
  dsimp only
  split <;> split <;> split <;> exact ⟨rfl, rfl, rfl, rfl, rfl⟩

theorem dirChangeFuel_frame (c : Ctx) (n : Nat) (s : WState) :
    (dirChangeFuel c n s).stack = s.stack ∧
    (dirChangeFuel c n s).position = s.position ∧
    (dirChangeFuel c n s).cwd = s.cwd ∧
    (dirChangeFuel c n s).backDisabled = s.backDisabled ∧
    (dirChangeFuel c n s).forwardDisabled = s.forwardDisabled ∧
    (dirChangeFuel c n s).upDisabled = s.upDisabled ∧
    (dirChangeFuel c n s).options = s.options ∧
    (dirChangeFuel c n s).selectorDisabled = s.selectorDisabled ∧
    (dirChangeFuel c n s).value = s.value := by
  induction n generalizing s with
  | zero => exact ⟨rfl, rfl, rfl, rfl, rfl, rfl, rfl, rfl, rfl⟩
  | succ n ih =>
    unfold dirChangeFuel
    dsimp only
    split
    · split
      · exact ⟨rfl, rfl, rfl, rfl, rfl, rfl, rfl, rfl, rfl⟩
      · exact ih _
    · split
      · exact ih _
      · exact ⟨rfl, rfl, rfl, rfl, rfl, rfl, rfl, rfl, rfl⟩

theorem dirChange_frame (c : Ctx) (s : WState) :
    (dirChange c s).stack = s.stack ∧
    (dirChange c s).position = s.position ∧
    (dirChange c s).cwd = s.cwd ∧
    (dirChange c s).backDisabled = s.backDisabled ∧
    (dirChange c s).forwardDisabled = s.forwardDisabled ∧
    (dirChange c s).value = s.value :=
  ⟨(dirChangeFuel_frame c 4 s).1, (dirChangeFuel_frame c 4 s).2.1,
   (dirChangeFuel_frame c 4 s).2.2.1, (dirChangeFuel_frame c 4 s).2.2.2.1,
   (dirChangeFuel_frame c 4 s).2.2.2.2.1, (dirChangeFuel_frame c 4 s).2.2.2.2.2.2.2.2⟩

theorem updateFiles_refresh_eq (c : Ctx) (event : Option Trigger) (s : WState) :
    updateFiles c event true s = listingTail c true s.cwd s := by
  unfold updateFiles
  simp

/-! ## Claim C9: refresh idempotence -/

/-- Claim C9: a refresh — the explicit `refresh=True` path used by the
periodic callback, or a reload-button event — re-lists the current directory
and leaves the history stack and the position untouched, over any number of
repetitions. -/
theorem refresh_preserves_history (c : Ctx) :
    (∀ (event : Option Trigger) (s : WState),
      (updateFiles c event true s).stack = s.stack ∧
      (updateFiles c event true s).position = s.position ∧
      (updateFiles c event true s).cwd = s.cwd) ∧
    (∀ s : WState,
      (updateFiles c (some Trigger.reload) false s).stack = s.stack ∧
      (updateFiles c (some Trigger.reload) false s).position = s.position ∧
      (updateFiles c (some Trigger.reload) false s).cwd = s.cwd) ∧
    (∀ (n : Nat) (s : WState),
      ((fun st => updateFiles c none true st)^[n] s).stack = s.stack ∧
      ((fun st => updateFiles c none true st)^[n] s).position = s.position) := by
  have hone : ∀ (event : Option Trigger) (s : WState),
      (updateFiles c event true s).stack = s.stack ∧
      (updateFiles c event true s).position = s.position ∧
      (updateFiles c event true s).cwd = s.cwd := by
    intro event s
    rw [updateFiles_refresh_eq]
    exact ⟨(listingTail_frame c true s.cwd s).1, (listingTail_frame c true s.cwd s).2.1,
      (listingTail_frame c true s.cwd s).2.2.1⟩
  refine ⟨hone, ?_, ?_⟩
  · intro s
    have : updateFiles c (some Trigger.reload) false s = listingTail c true s.cwd s := by
      unfold updateFiles
      simp
    rw [this]
    exact ⟨(listingTail_frame c true s.cwd s).1, (listingTail_frame c true s.cwd s).2.1,
      (listingTail_frame c true s.cwd s).2.2.1⟩
  · intro n
    induction n with
    | zero => intro s; exact ⟨rfl, rfl⟩
    | succ n ih =>
      intro s
      rw [Function.iterate_succ_apply]
      refine ⟨((ih _).1).trans (hone none s).1, ((ih _).2).trans (hone none s).2.1⟩

/-! ## Claim C4: `only_files` keeps directories out of `value` -/

/-- A filesystem with one directory and one file, used to witness the
`only_files` reconciliation. -/
def fsVal : FS :=
  { listdir := fun p => if p = "/data" then ["sub", "a.txt"] else []
    isdir := fun p => p == "/data" || p == "/data/sub"
    isfile := fun p => p == "/data/a.txt"
    islink := fun _ => false
    realpath := fun p => p }

/-- Widget context over `fsVal` with `only_files` enabled. -/
def ctxVal : Ctx :=
  { fs := fsVal
    fullpath := id
    normalize := id
    rootDirectory := "/data"
    filePattern := "*"
    showHidden := false
    onlyFiles := true }

/-- Node-type index of a small tree over `/data`, as `FileTree._index`
reports it. -/
def idxVal : String → Option String := fun nid =>
  if nid == "/data" || nid == "/data/sub" then some "folder"
  else if nid == "/data/a.txt" then some "file"
  else none

/-- Claim C4: with `only_files` enabled, selection reconciliation never
leaves a directory path in `value`: `FileSelector._update_value` keeps only
paths that are plain files (so no directory survives on a filesystem where
nothing is both), and `FileTree._process_property_change` keeps only node
ids indexed as `"file"`. -/
theorem only_files_value_invariant (c : Ctx) (idx : String → Option String)
    (hof : c.onlyFiles = true)
    (hdisj : ∀ p, c.fs.isdir p = true → c.fs.isfile p = false) :
    (∀ (new : List String) (v : String), v ∈ updateValue c new →
      c.fs.isfile v = true ∧ c.fs.isdir v = false) ∧
    (∀ (value : List String) (nid : String),
      nid ∈ processPropertyChangeValue idx true value → idx nid = some "file") := by
  constructor
  · intro new v hv
    have h := List.of_mem_filter hv
    rw [hof] at h
    simp only [Bool.not_true, Bool.false_or, Bool.and_eq_true, decide_eq_true_eq] at h
    refine ⟨h.2, ?_⟩
    by_contra hdir
    have : c.fs.isdir v = true := by
      cases hd : c.fs.isdir v
      · exact absurd hd hdir
      · rfl
    rw [hdisj v this] at h
    exact Bool.false_ne_true h.2
  · intro value nid hnid
    unfold processPropertyChangeValue at hnid
    simp only [if_pos rfl] at hnid
    have h := List.of_mem_filter hnid
    simpa using h

/-- Witness for C4: on the concrete filesystem, reconciling the selection
`["..", "/data/sub", "/data/a.txt"]` never lets the directory `/data/sub`
through — the surviving file is a file and not a directory — and the tree
filter keeps only the `"file"`-typed node. -/
theorem only_files_value_invariant_witness :
    (ctxVal.fs.isfile "/data/a.txt" = true ∧ ctxVal.fs.isdir "/data/a.txt" = false) ∧
    idxVal "/data/a.txt" = some "file" := by
  have hdisj : ∀ p, ctxVal.fs.isdir p = true → ctxVal.fs.isfile p = false := by
    intro p hp
    simp only [ctxVal, fsVal, Bool.or_eq_true, beq_iff_eq] at hp ⊢
    rcases hp with h | h <;> rw [h] <;> decide
  refine ⟨(only_files_value_invariant ctxVal idxVal rfl hdisj).1
      ["..", "/data/sub", "/data/a.txt"] "/data/a.txt" (by decide),
    (only_files_value_invariant ctxVal idxVal rfl hdisj).2
      ["/data/sub", "/data/a.txt"] "/data/a.txt" (by decide)⟩

/-! ## Claims C5 and C10: symlink classification in `_scan_path` -/

theorem foldl_mem_mono {α : Type} {f : List String → α → List String} {j : String}
    (hf : ∀ acc a, j ∈ acc → j ∈ f acc a) (l : List α) :
    ∀ acc, j ∈ acc → j ∈ l.foldl f acc := by
  induction l with
  | nil => intro acc h; exact h
  | cons a as ih => intro acc h; exact ih _ (hf acc a h)

theorem foldl_mem_of_mem {α : Type} [DecidableEq α] {f : List String → α → List String}
    {j : String} {a0 : α} (hmono : ∀ acc a, j ∈ acc → j ∈ f acc a)
    (hadd : ∀ acc, j ∈ f acc a0) (l : List α) (hl : a0 ∈ l) :
    ∀ acc, j ∈ l.foldl f acc := by
  induction l with
  | nil => cases hl
  | cons a as ih =>
    intro acc
    rcases List.mem_cons.mp hl with h | h
    · rw [← h]
      exact foldl_mem_mono hmono as _ (hadd acc)
    · exact ih h _

theorem foldl_count_mono {α : Type} {f : List String → α → List String} {j : String}
    (hf : ∀ acc a, (List.count j acc) ≤ List.count j (f acc a)) (l : List α) :
    ∀ acc, List.count j acc ≤ List.count j (l.foldl f acc) := by
  induction l with
  | nil => intro acc; exact le_refl _
  | cons a as ih => intro acc; exact le_trans (hf acc a) (ih _)

theorem foldl_count_add {α : Type} {f : List String → α → List String} {j : String} {a0 : α}
    (hmono : ∀ acc a, (List.count j acc) ≤ List.count j (f acc a))
    (hadd : ∀ acc, List.count j acc + 1 ≤ List.count j (f acc a0)) (l : List α)
    (hl : a0 ∈ l) : ∀ acc, List.count j acc + 1 ≤ List.count j (l.foldl f acc) := by
  induction l with
  | nil => cases hl
  | cons a as ih =>
    intro acc
    rcases List.mem_cons.mp hl with h | h
    · rw [← h]
      exact le_trans (hadd acc) (foldl_count_mono hmono as _)
    · exact le_trans (Nat.add_le_add_right (hmono acc a) 1) (ih h _)

/-- Claim C5: in `_scan_path`, a child that is a symbolic link resolving to a
directory ends up in the returned `dirs` list, and a child that is a symbolic
link resolving to a regular file (and not to a directory) is also classified
into `dirs`. -/
theorem scanPath_symlink_classification (fs : FS) (path child pat : String)
    (hmem : child ∈ fs.listdir path)
    (hlink : fs.islink (pyJoin path child) = true) :
    (fs.isdir (fs.realpath (pyJoin path child)) = true →
      pyJoin path child ∈ (scanPath fs path pat).1) ∧
    (fs.isdir (fs.realpath (pyJoin path child)) = false →
      fs.isfile (fs.realpath (pyJoin path child)) = true →
      pyJoin path child ∈ (scanPath fs path pat).1) := by
  have hjmem : pyJoin path child ∈ (fs.listdir path).map (fun p => pyJoin path p) :=
    List.mem_map.mpr ⟨child, hmem, rfl⟩
  have hmono : ∀ (acc : List String) (a : String),
      pyJoin path child ∈ acc →
      pyJoin path child ∈
        (if fs.islink a = false then acc
         else
           let rp := fs.realpath a
           if fs.isdir rp then acc ++ [a]
           else if fs.isfile rp then acc ++ [a]
           else acc) := by
    intro acc a h
    dsimp only
    split
    · exact h
    · split
      · exact List.mem_append_left _ h
      · split
        · exact List.mem_append_left _ h
        · exact h
  constructor
  · intro hdir
    unfold scanPath
    refine foldl_mem_of_mem hmono ?_ _ hjmem _
    intro acc
    dsimp only
    rw [hlink, if_neg (by decide), if_pos hdir]
    exact List.mem_append_right _ (by simp)
  · intro hdir hfile
    unfold scanPath
    refine foldl_mem_of_mem hmono ?_ _ hjmem _
    intro acc
    dsimp only
    rw [hlink, if_neg (by decide), if_neg (by rw [hdir]; decide), if_pos hfile]
    exact List.mem_append_right _ (by simp)

/-- Witness for C5 on the concrete filesystem: the symlink to a directory
and the symlink to a file both land in the `dirs` list. -/
theorem scanPath_symlink_classification_witness :
    pyJoin "/data" "linkd" ∈ (scanPath fsLinks "/data" "*").1 ∧
    pyJoin "/data" "linkf" ∈ (scanPath fsLinks "/data" "*").1 :=
  ⟨(scanPath_symlink_classification fsLinks "/data" "linkd" "*" (by decide) (by decide)).1
      (by decide),
   (scanPath_symlink_classification fsLinks "/data" "linkf" "*" (by decide) (by decide)).2
      (by decide) (by decide)⟩

/-- Claim C10: in `_scan_path`, a symbolic link to a directory is classified
twice — it passes the `isdir` comprehension and is appended again by the
symlink pass, so it occurs at least twice in `dirs` — and a symbolic link to
a file matching the pattern occurs in `files` and in `dirs` at once: the
returned lists are neither duplicate-free nor disjoint in the presence of
symlinks. -/
theorem scanPath_symlink_duplication (fs : FS) (path child pat : String)
    (hmem : child ∈ fs.listdir path)
    (hlink : fs.islink (pyJoin path child) = true) :
    (fs.isdir (pyJoin path child) = true →
      fs.isdir (fs.realpath (pyJoin path child)) = true →
      2 ≤ (scanPath fs path pat).1.count (pyJoin path child)) ∧
    (fs.isfile (pyJoin path child) = true →
      pyFnmatch (basename (pyJoin path child)) pat = true →
      fs.isdir (fs.realpath (pyJoin path child)) = false →
      fs.isfile (fs.realpath (pyJoin path child)) = true →
      pyJoin path child ∈ (scanPath fs path pat).2 ∧
      pyJoin path child ∈ (scanPath fs path pat).1) := by
  have hjmem : pyJoin path child ∈ (fs.listdir path).map (fun p => pyJoin path p) :=
    List.mem_map.mpr ⟨child, hmem, rfl⟩
  have hcmono : ∀ (acc : List String) (a : String),
      List.count (pyJoin path child) acc ≤
      List.count (pyJoin path child)
        (if fs.islink a = false then acc
         else
           let rp := fs.realpath a
           if fs.isdir rp then acc ++ [a]
           else if fs.isfile rp then acc ++ [a]
           else acc) := by
    intro acc a
    dsimp only
    split
    · exact le_refl _
    · split
      · rw [List.count_append]; exact Nat.le_add_right _ _
      · split
        · rw [List.count_append]; exact Nat.le_add_right _ _
        · exact le_refl _
  constructor
  · intro hself hdir
    have h1 : 1 ≤ List.count (pyJoin path child)
        (((fs.listdir path).map (fun p => pyJoin path p)).filter (fun p => fs.isdir p)) := by
      refine List.count_pos_iff.mpr ?_
      exact List.mem_filter.mpr ⟨hjmem, hself⟩
    unfold scanPath
    dsimp only
    have hadd : ∀ acc : List String,
        List.count (pyJoin path child) acc + 1 ≤
        List.count (pyJoin path child)
          (if fs.islink (pyJoin path child) = false then acc
           else
             let rp := fs.realpath (pyJoin path child)
             if fs.isdir rp then acc ++ [pyJoin path child]
             else if fs.isfile rp then acc ++ [pyJoin path child]
             else acc) := by
      intro acc
      dsimp only
      rw [hlink, if_neg (by decide), if_pos hdir, List.count_append]
      simp
    refine le_trans ?_ (foldl_count_add hcmono hadd _ hjmem
      (((fs.listdir path).map (fun p => pyJoin path p)).filter (fun p => fs.isdir p)))
    omega
  · intro hself hpat hdir hfile
    constructor
    · unfold scanPath
      refine List.mem_filter.mpr ⟨hjmem, ?_⟩
      rw [hself, hpat]
      rfl
    · have hmono : ∀ (acc : List String) (a : String),
          pyJoin path child ∈ acc →
          pyJoin path child ∈
            (if fs.islink a = false then acc
             else
               let rp := fs.realpath a
               if fs.isdir rp then acc ++ [a]
               else if fs.isfile rp then acc ++ [a]
               else acc) := by
        intro acc a h
        dsimp only
        split
        · exact h
        · split
          · exact List.mem_append_left _ h
          · split
            · exact List.mem_append_left _ h
            · exact h
      unfold scanPath
      refine foldl_mem_of_mem hmono ?_ _ hjmem _
      intro acc
      dsimp only
      rw [hlink, if_neg (by decide), if_neg (by rw [hdir]; decide), if_pos hfile]
      exact List.mem_append_right _ (by simp)

/-- Witness for C10 on the concrete filesystem: the directory symlink occurs
twice in `dirs`, and the file symlink occurs in both `files` and `dirs`. -/
theorem scanPath_symlink_duplication_witness :
    2 ≤ (scanPath fsLinks "/data" "*").1.count (pyJoin "/data" "linkd") ∧
    (pyJoin "/data" "linkf" ∈ (scanPath fsLinks "/data" "*").2 ∧
     pyJoin "/data" "linkf" ∈ (scanPath fsLinks "/data" "*").1) :=
  ⟨(scanPath_symlink_duplication fsLinks "/data" "linkd" "*" (by decide) (by decide)).1
      (by decide) (by decide),
   (scanPath_symlink_duplication fsLinks "/data" "linkf" "*" (by decide) (by decide)).2
      (by decide) (by decide) (by decide) (by decide)⟩

/-! ## Claim C6: provider construction -/

/-- A backend object exposing `ls`, `glob` and `isdir` without being an
fsspec `AbstractFileSystem` instance. -/
def duckObj : PyObj :=
  { isAbstractFileSystem := false
    hasLs := true
    hasGlob := true
    hasIsdir := true
    typeName := "DuckFS" }

/-- An fsspec `AbstractFileSystem` instance (such instances always provide
`ls`, `glob` and `isdir`). -/
def afsObj : PyObj :=
  { isAbstractFileSystem := true
    hasLs := true
    hasGlob := true
    hasIsdir := true
    typeName := "S3FileSystem" }

/-- An unrelated object with none of the capability methods. -/
def otherObj : PyObj :=
  { isAbstractFileSystem := false
    hasLs := false
    hasGlob := false
    hasIsdir := false
    typeName := "int" }

/-- Counterexample to C6 as stated: an object that satisfies the
remote-filesystem capability (it has `ls`, `glob` and `isdir`) but is not an
`AbstractFileSystem` instance is rejected by `from_filesystem` (the dispatch
is by `isinstance`, not by capability), instead of yielding the remote
provider. -/
theorem fromFilesystem_capability_counterexample :
    hasRemoteCapability duckObj = true ∧
    fromFilesystem true (FSArg.obj duckObj) =
      Except.error "Unsupported filesystem type: DuckFS" := by
  constructor
  · rfl
  · rfl

/-- Claim C6 (amended): no backend yields the local provider; an fsspec
`AbstractFileSystem` instance (with fsspec importable) yields the remote
provider; any other object — even one exposing the `ls`/`glob`/`isdir`
capability methods — fails at construction with an "Unsupported filesystem
type" error naming the offending type, and `BaseFileSelector.__init__`
propagates that failure before building any selector state. -/
theorem fromFilesystem_dispatch (fsspecInstalled : Bool)
    (normalizeOf : Provider → String → String)
    (directory root_directory : Option String) :
    fromFilesystem fsspecInstalled FSArg.noFs = Except.ok Provider.localProvider ∧
    (∀ o : PyObj, fsspecInstalled = true → o.isAbstractFileSystem = true →
      fromFilesystem fsspecInstalled (FSArg.obj o) = Except.ok (Provider.remoteProvider o)) ∧
    (∀ o : PyObj, (fsspecInstalled && o.isAbstractFileSystem) = false →
      fromFilesystem fsspecInstalled (FSArg.obj o) =
        Except.error ("Unsupported filesystem type: " ++ o.typeName)) ∧
    (∀ (fsArg : FSArg) (e : String), fromFilesystem fsspecInstalled fsArg = Except.error e →
      baseFileSelectorInit fsspecInstalled fsArg normalizeOf directory root_directory =
        Except.error e) := by
  refine ⟨rfl, ?_, ?_, ?_⟩
  · intro o hspec habs
    unfold fromFilesystem
    dsimp only
    rw [hspec, habs]
    rfl
  · intro o hno
    unfold fromFilesystem
    dsimp only
    rw [if_neg (by rw [hno]; decide)]
  · intro fsArg e herr
    unfold baseFileSelectorInit
    rw [herr]

/-- Witness for C6 (amended): with fsspec absent the capability-less object
is rejected with an error naming its type and the selector constructor
propagates it; with fsspec present an `AbstractFileSystem` instance yields
the remote provider. -/
theorem fromFilesystem_dispatch_witness :
    fromFilesystem false (FSArg.obj otherObj) =
      Except.error "Unsupported filesystem type: int" ∧
    baseFileSelectorInit false (FSArg.obj otherObj) (fun _ p => p) (some "/d") none =
      Except.error "Unsupported filesystem type: int" ∧
    fromFilesystem true (FSArg.obj afsObj) = Except.ok (Provider.remoteProvider afsObj) := by
  refine ⟨(fromFilesystem_dispatch false (fun _ p => p) (some "/d") none).2.2.1 otherObj rfl, ?_, ?_⟩
  · exact (fromFilesystem_dispatch false (fun _ p => p) (some "/d") none).2.2.2
      (FSArg.obj otherObj) "Unsupported filesystem type: int"
      ((fromFilesystem_dispatch false (fun _ p => p) (some "/d") none).2.2.1 otherObj rfl)
  · exact (fromFilesystem_dispatch true (fun _ p => p) (some "/d") none).2.1 afsObj rfl rfl

/-! ## Claim C8: hidden-file filtering -/

theorem listingTail_options (c : Ctx) (r : Bool) (p : String) (s : WState) :
    (listingTail c r p s).options = dictOf (listingPairs c p s.value) := by
  unfold listingTail
  dsimp only
  split <;> split <;> split <;> rfl

theorem listingPairs_values_not_hidden (c : Ctx) (path : String) (sel : List String)
    (hsh : c.showHidden = false) (v : String)
    (hv : v ∈ (listingPairs c path sel).map Prod.snd) (hne : v ≠ "..") :
    pyStartswith (basename v) "." = false := by
  unfold listingPairs at hv
  dsimp only at hv
  obtain ⟨pr, hpr, hsnd⟩ := List.mem_map.mp hv
  have hb := (List.of_mem_zip hpr).2
  rw [hsnd] at hb
  split at hb
  · have h := List.of_mem_filter hb
    rw [hsh] at h
    simpa using h
  · rcases List.mem_cons.mp hb with h | h
    · exact absurd h hne
    · have h' := List.of_mem_filter h
      rw [hsh] at h'
      simpa using h'

/-- Counterexample to C8 as stated: when the current directory is below the
root, `_update_files` inserts the ascend pseudo-entry `..` into the listed
options after applying the hidden-basename filter, and the basename of `..`
starts with a period — so with `show_hidden=false` an entry whose basename
starts with `.` does appear among the listed options. -/
theorem hidden_filter_counterexample :
    ctxNav.showHidden = false ∧
    ".." ∈ ((initState ctxNav "/r/sub").options.map Prod.snd) ∧
    pyStartswith (basename "..") "." = true := by
  refine ⟨rfl, by decide, by decide⟩

/-- Claim C8 (amended): with `show_hidden=false`, no listed option other
than the ascend pseudo-entry `..` has a basename starting with `.`,
regardless of the active file pattern, across every branch of
`_update_files`. -/
theorem hidden_filter_amended (c : Ctx) (event : Option Trigger) (refresh : Bool)
    (s : WState) (hsh : c.showHidden = false) :
    ∀ v ∈ (updateFiles c event refresh s).options.map Prod.snd, v ≠ ".." →
      pyStartswith (basename v) "." = false := by
  intro v hv hne
  unfold updateFiles at hv
  dsimp only at hv
  split at hv
  · rw [listingTail_options] at hv
    exact listingPairs_values_not_hidden c _ _ hsh v (dictOf_values_subset hv) hne
  · split at hv
    · simp only [List.map_cons, List.map_nil, List.mem_singleton] at hv
      rw [hv]
      decide
    · split at hv
      · rw [listingTail_options] at hv
        exact listingPairs_values_not_hidden c _ _ hsh v (dictOf_values_subset hv) hne
      · rw [listingTail_options] at hv
        exact listingPairs_values_not_hidden c _ _ hsh v (dictOf_values_subset hv) hne

/-- Witness for C8 (amended): in a concrete listing of `/data` the listed
file survives and its basename does not start with a period. -/
theorem hidden_filter_amended_witness :
    pyStartswith (basename "/data/a.txt") "." = false :=
  hidden_filter_amended ctxVal (some Trigger.initial) false
    { directoryValue := "/data"
      cwd := ""
      stack := []
      position := -1
      backDisabled := true
      forwardDisabled := true
      upDisabled := true
      goDisabled := true
      options := []
      selectorDisabled := false
      value := [] }
    rfl "/data/a.txt" (by decide) (by decide)

/-! ## Claim C1: clamping to the root directory -/

theorem isPrefixOf_self (l : List Char) : List.isPrefixOf l l = true := by
  induction l with
  | nil => rfl
  | cons a as ih => simp [List.isPrefixOf, ih]

theorem pyStartswith_refl (s : String) : pyStartswith s s = true :=
  isPrefixOf_self s.data

/-- Counterexample to C1 as stated: `/datax` lies outside the root `/data`
(it is neither the root nor below it), yet because `_dir_change` tests
`path.startswith(root)` on raw strings, navigating to it from `/data` is not
clamped — both the displayed and the current directory end up at `/datax`,
not at the root. -/
theorem root_clamp_counterexample :
    specOutsideRoot ctxClamp.rootDirectory (ctxClamp.fullpath "/datax") = true ∧
    (navigate ctxClamp "/datax" (initState ctxClamp "/data")).cwd = "/datax" ∧
    (navigate ctxClamp "/datax" (initState ctxClamp "/data")).directoryValue = "/datax" := by
  exact ⟨by decide, by decide, by decide⟩

theorem dirChange_clamp (c : Ctx) (s : WState)
    (hfroot : c.fullpath c.rootDirectory = c.rootDirectory)
    (hout : pyStartswith (c.fullpath s.directoryValue) c.rootDirectory = false) :
    dirChange c s =
      { s with directoryValue := c.rootDirectory
               goDisabled := (c.rootDirectory = s.cwd) } := by
  have hsne : s.directoryValue ≠ c.rootDirectory := by
    intro h
    rw [h, hfroot, pyStartswith_refl] at hout
    exact absurd hout (by decide)
  show dirChangeFuel c 4 s = _
  unfold dirChangeFuel
  dsimp only
  rw [if_pos hout, if_neg hsne]
  unfold dirChangeFuel
  dsimp only
  rw [hfroot]
  rw [if_neg (by rw [pyStartswith_refl]; decide)]
  rw [if_neg (by exact fun h => h rfl)]

theorem updateFiles_go_valid (c : Ctx) (s : WState)
    (hdir : c.fs.isdir (c.normalize s.directoryValue) = true) :
    (updateFiles c (some Trigger.go) false s).cwd = c.normalize s.directoryValue ∧
    (updateFiles c (some Trigger.go) false s).directoryValue = s.directoryValue := by
  unfold updateFiles
  dsimp only
  rw [if_neg (by decide)]
  rw [if_neg (by rw [hdir]; decide)]
  split
  · exact ⟨(listingTail_frame c _ _ _).2.2.1, (listingTail_frame c _ _ _).2.2.2.2⟩
  · exact ⟨(listingTail_frame c _ _ _).2.2.1, (listingTail_frame c _ _ _).2.2.2.2⟩

/-- Claim C1 (amended): when the normalised entered path fails the literal
string-prefix test against the root (`path.startswith(root)`), the navigator
silently clamps the displayed directory input to exactly the root and the
resulting current directory is the root; paths outside the root directory
tree that share the root as a string prefix (such as `/datax` under root
`/data`) pass the test and are not clamped. -/
theorem root_clamp_amended (c : Ctx) (s : WState) (p : String)
    (hfroot : c.fullpath c.rootDirectory = c.rootDirectory)
    (hnroot : c.normalize c.rootDirectory = c.rootDirectory)
    (hrootdir : c.fs.isdir c.rootDirectory = true)
    (hout : pyStartswith (c.fullpath p) c.rootDirectory = false)
    (hne : p ≠ s.directoryValue) :
    (navigate c p s).directoryValue = c.rootDirectory ∧
    (navigate c p s).cwd = c.rootDirectory ∨
    (navigate c p s).directoryValue = c.rootDirectory ∧
    (navigate c p s).cwd = s.cwd ∧ s.cwd = c.rootDirectory := by
  unfold navigate
  dsimp only
  rw [if_pos hne]
  rw [dirChange_clamp c _ hfroot (by exact hout)]
  by_cases hc : c.rootDirectory = s.cwd
  · right
    rw [if_pos (by simpa using hc)]
    exact ⟨rfl, rfl, hc.symm⟩
  · left
    rw [if_neg (by simpa using hc)]
    have h := updateFiles_go_valid c
      { s with directoryValue := c.rootDirectory
               goDisabled := (c.rootDirectory = s.cwd) }
      (by dsimp only; rw [hnroot]; exact hrootdir)
    refine ⟨h.2.trans rfl, h.1.trans ?_⟩
    dsimp only
    exact hnroot

/-- Witness for C1 (amended): navigating from `/data/sub` to `/etc` — whose
normalisation does not start with the root `/data` — clamps the displayed
directory and the current directory to exactly `/data`. -/
theorem root_clamp_amended_witness :
    (navigate ctxClamp "/etc" (navigate ctxClamp "/data/sub" (initState ctxClamp "/data"))).directoryValue = "/data" ∧
    (navigate ctxClamp "/etc" (navigate ctxClamp "/data/sub" (initState ctxClamp "/data"))).cwd = "/data" := by
  have h := root_clamp_amended ctxClamp
    (navigate ctxClamp "/data/sub" (initState ctxClamp "/data")) "/etc"
    rfl rfl (by decide) (by decide) (by decide)
  rcases h with ⟨h1, h2⟩ | ⟨h1, h2, h3⟩
  · exact ⟨h1, h2⟩
  · exact ⟨h1, h2.trans h3⟩

/-! ## Claim C3: selections stay listed (round-trip) -/

theorem reconcile_dirs_mono (fs : FS) (selected : List String) (e : String) :
    ∀ dirs files : List String, e ∈ dirs → e ∈ (reconcile fs selected dirs files).1 := by
  induction selected with
  | nil => intro dirs files h; exact h
  | cons a rest ih =>
    intro dirs files h
    unfold reconcile
    rw [List.foldl_cons]
    refine ih _ _ ?_
    show e ∈ (if fs.isdir (if fs.islink a = true then fs.realpath a else a) = true
        then (dirs ++ [a], files)
        else if fs.isfile (if fs.islink a = true then fs.realpath a else a) = true
        then (dirs, files ++ [a]) else (dirs, files)).1
    split
    · split
      · exact List.mem_append_left _ h
      · split
        · exact h
        · exact h
    · split
      · exact List.mem_append_left _ h
      · split
        · exact h
        · exact h

theorem reconcile_files_mono (fs : FS) (selected : List String) (e : String) :
    ∀ dirs files : List String, e ∈ files → e ∈ (reconcile fs selected dirs files).2 := by
  induction selected with
  | nil => intro dirs files h; exact h
  | cons a rest ih =>
    intro dirs files h
    unfold reconcile
    rw [List.foldl_cons]
    refine ih _ _ ?_
    show e ∈ (if fs.isdir (if fs.islink a = true then fs.realpath a else a) = true
        then (dirs ++ [a], files)
        else if fs.isfile (if fs.islink a = true then fs.realpath a else a) = true
        then (dirs, files ++ [a]) else (dirs, files)).2
    split
    · split
      · exact h
      · split
        · exact List.mem_append_left _ h
        · exact h
    · split
      · exact h
      · split
        · exact List.mem_append_left _ h
        · exact h

theorem reconcile_mem_dirs (fs : FS) (selected : List String) (e : String)
    (hsel : e ∈ selected)
    (hdir : fs.isdir (if fs.islink e then fs.realpath e else e) = true) :
    ∀ dirs files : List String, e ∈ (reconcile fs selected dirs files).1 := by
  induction selected with
  | nil => cases hsel
  | cons a rest ih =>
    intro dirs files
    unfold reconcile
    rw [List.foldl_cons]
    rcases List.mem_cons.mp hsel with h | h
    · refine reconcile_dirs_mono fs rest e _ _ ?_
      rw [← h]
      show e ∈ (if fs.isdir (if fs.islink e = true then fs.realpath e else e) = true
          then (dirs ++ [e], files)
          else if fs.isfile (if fs.islink e = true then fs.realpath e else e) = true
          then (dirs, files ++ [e]) else (dirs, files)).1
      rw [if_pos hdir]
      exact List.mem_append_right _ (by simp)
    · exact ih h _ _

theorem reconcile_mem_files (fs : FS) (selected : List String) (e : String)
    (hsel : e ∈ selected)
    (hdir : fs.isdir (if fs.islink e then fs.realpath e else e) = false)
    (hfile : fs.isfile (if fs.islink e then fs.realpath e else e) = true) :
    ∀ dirs files : List String, e ∈ (reconcile fs selected dirs files).2 := by
  induction selected with
  | nil => cases hsel
  | cons a rest ih =>
    intro dirs files
    unfold reconcile
    rw [List.foldl_cons]
    rcases List.mem_cons.mp hsel with h | h
    · refine reconcile_files_mono fs rest e _ _ ?_
      rw [← h]
      show e ∈ (if fs.isdir (if fs.islink e = true then fs.realpath e else e) = true
          then (dirs ++ [e], files)
          else if fs.isfile (if fs.islink e = true then fs.realpath e else e) = true
          then (dirs, files ++ [e]) else (dirs, files)).2
      rw [if_neg (by rw [hdir]; decide), if_pos hfile]
      exact List.mem_append_right _ (by simp)
    · exact ih h _ _

theorem zip_map_self {α β : Type} (f : α → β) (l : List α) :
    (l.map f).zip l = l.map (fun a => (f a, a)) := by
  induction l with
  | nil => rfl
  | cons a as ih => simp [ih]

theorem listingPairs_mem_value (c : Ctx) (path : String) (sel : List String) (e : String)
    (hsel : e ∈ sel)
    (hclass : c.fs.isdir (if c.fs.islink e then c.fs.realpath e else e) = true ∨
      (c.fs.isdir (if c.fs.islink e then c.fs.realpath e else e) = false ∧
       c.fs.isfile (if c.fs.islink e then c.fs.realpath e else e) = true))
    (hvis : c.showHidden = true ∨ pyStartswith (basename e) "." = false)
    (hinj : ∀ pr ∈ listingPairs c path sel, ∀ qr ∈ listingPairs c path sel,
      pr.1 = qr.1 → pr.2 = qr.2) :
    e ∈ (dictOf (listingPairs c path sel)).map Prod.snd := by
  have hcond : (c.showHidden || !(pyStartswith (basename e) ".")) = true := by
    rcases hvis with h | h <;> rw [h] <;> simp
  have hmem : e ∈ ((pysorted (reconcile c.fs sel (providerLs c.fs path c.filePattern).1
        (providerLs c.fs path c.filePattern).2).1 ++
      pysorted (reconcile c.fs sel (providerLs c.fs path c.filePattern).1
        (providerLs c.fs path c.filePattern).2).2).filter
      (fun p => c.showHidden || !(pyStartswith (basename p) "."))) := by
    refine List.mem_filter.mpr ⟨?_, hcond⟩
    rcases hclass with h | ⟨h1, h2⟩
    · exact List.mem_append_left _ (mem_pysorted.mpr (reconcile_mem_dirs c.fs sel e hsel h _ _))
    · exact List.mem_append_right _ (mem_pysorted.mpr (reconcile_mem_files c.fs sel e hsel h1 h2 _ _))
  have hq : ((if (reconcile c.fs sel (providerLs c.fs path c.filePattern).1
        (providerLs c.fs path c.filePattern).2).1.contains e then folderGlyph else "")
        ++ relpath e path, e) ∈ listingPairs c path sel := by
    unfold listingPairs
    dsimp only
    split
    · rw [zip_map_self]
      exact List.mem_map.mpr ⟨e, hmem, rfl⟩
    · rw [List.zip_cons_cons, zip_map_self]
      exact List.mem_cons.mpr (Or.inr (List.mem_map.mpr ⟨e, hmem, rfl⟩))
  refine dictOf_mem_values_of_unique hq ?_
  intro p hp hpk
  exact hinj p hp _ hq hpk

/-- A widget state browsing `/data/sub` with the directory `/data/x`
selected, about to navigate (back) to `/data`. -/
def sGlyph : WState :=
  { directoryValue := "/data"
    cwd := "/data/sub"
    stack := ["/data", "/data/sub"]
    position := 1
    backDisabled := false
    forwardDisabled := true
    upDisabled := false
    goDisabled := false
    options := []
    selectorDisabled := false
    value := ["/data/x"] }

/-- Counterexample to C3 as stated: the selected directory `/data/x` (with
`only_files` off, so nothing excludes it) disappears from the listed options
after navigating back to `/data`, because its display label `📁x` collides
with the label of the file literally named `📁x` present in `/data`, and the
Python `dict(zip(abbreviated, paths))` keeps only one path per label. -/
theorem selection_roundtrip_counterexample :
    ctxGlyph.onlyFiles = false ∧
    "/data/x" ∈ sGlyph.value ∧
    ctxGlyph.fs.isdir "/data/x" = true ∧
    "/data/x" ∉ ((updateFiles ctxGlyph (some Trigger.go) false sGlyph).options.map Prod.snd) := by
  exact ⟨rfl, by decide, by decide, by decide⟩

/-- Claim C3 (amended): a selected entry survives into the listed options of
every (non-refresh) re-listing — it is appended to the scan of the new
current directory and listed even when not physically present there —
provided it still classifies as a directory or file (through its symlink
target when it is a link), it is not hidden from view by the hidden-file
filter, and no distinct listed entry renders to the same display label (the
label collision is the one way a selection can vanish from the options
dictionary). -/
theorem selection_roundtrip_amended (c : Ctx) (event : Option Trigger) (s : WState)
    (e : String)
    (hsel : e ∈ s.value)
    (hclass : c.fs.isdir (if c.fs.islink e then c.fs.realpath e else e) = true ∨
      (c.fs.isdir (if c.fs.islink e then c.fs.realpath e else e) = false ∧
       c.fs.isfile (if c.fs.islink e then c.fs.realpath e else e) = true))
    (hvis : c.showHidden = true ∨ pyStartswith (basename e) "." = false)
    (hnr : event ≠ some Trigger.reload)
    (hdir : c.fs.isdir (c.normalize s.directoryValue) = true)
    (hinj : ∀ pr ∈ listingPairs c (c.normalize s.directoryValue) s.value,
      ∀ qr ∈ listingPairs c (c.normalize s.directoryValue) s.value,
      pr.1 = qr.1 → pr.2 = qr.2) :
    e ∈ ((updateFiles c event false s).options.map Prod.snd) := by
  unfold updateFiles
  dsimp only
  rw [if_neg (by simpa using hnr)]
  rw [if_neg (by rw [hdir]; decide)]
  split
  · rw [listingTail_options]
    exact listingPairs_mem_value c _ _ e hsel hclass hvis hinj
  · rw [listingTail_options]
    exact listingPairs_mem_value c _ _ e hsel hclass hvis hinj

/-- A widget context over the collision-free `/data` filesystem, for
browsing with directories selectable. -/
def ctxRt : Ctx :=
  { fs := fsVal
    fullpath := id
    normalize := id
    rootDirectory := "/data"
    filePattern := "*"
    showHidden := false
    onlyFiles := false }

/-- A widget state at `/data` with the directory `/data/sub` selected. -/
def sRt : WState :=
  { directoryValue := "/data"
    cwd := "/data"
    stack := ["/data"]
    position := 0
    backDisabled := true
    forwardDisabled := true
    upDisabled := true
    goDisabled := false
    options := []
    selectorDisabled := false
    value := ["/data/sub"] }

/-- Witness for C3 (amended): on the concrete filesystem without label
collisions, the selected directory `/data/sub` is still among the listed
option paths after re-listing `/data`. -/
theorem selection_roundtrip_amended_witness :
    "/data/sub" ∈ ((updateFiles ctxRt (some Trigger.go) false sRt).options.map Prod.snd) :=
  selection_roundtrip_amended ctxRt (some Trigger.go) sRt "/data/sub"
    (by decide) (by decide) (by decide) (by decide) (by decide) (by decide)

/-! ## Claim C7: tree expansion and the depth cap -/

theorem pyFnmatch_nodot (s : String) (h : pyFnmatch s "[!.]*" = true) :
    pyStartswith s "." = false := by
  unfold pyFnmatch at h
  unfold pyStartswith
  cases hd : s.data with
  | nil =>
    rw [hd] at h
    exact absurd h (by decide)
  | cons c cs =>
    rw [hd] at h
    have h' : ((!(classMatch ['.'] c)) && fnmatchFuel 4 ['*'] cs) = true := h
    have hc : classMatch ['.'] c = false := by
      cases hcc : classMatch ['.'] c
      · rfl
      · rw [hcc] at h'
        simp at h'
    have hcd : ¬('.' = c) := by
      have h2 : (('.' = c : Bool) || classMatch ([] : List Char) c) = false := hc
      simp at h2
      exact h2.1
    show List.isPrefixOf ['.'] (c :: cs) = false
    simp [List.isPrefixOf, hcd]

theorem lexLe_total (a : List Char) : ∀ b : List Char, lexLe a b = true ∨ lexLe b a = true := by
  induction a with
  | nil => intro b; left; rfl
  | cons x xs ih =>
    intro b
    cases b with
    | nil => right; rfl
    | cons y ys =>
      unfold lexLe
      by_cases hxy : x = y
      · rw [if_pos hxy, if_pos hxy.symm]
        exact ih ys
      · rw [if_neg hxy, if_neg (fun h => hxy h.symm)]
        rcases lt_trichotomy x y with h | h | h
        · left; exact decide_eq_true h
        · exact absurd h hxy
        · right; exact decide_eq_true h

theorem pyLe_total (a b : String) : pyLe a b = true ∨ pyLe b a = true :=
  lexLe_total a.data b.data

theorem chain'_insertSorted (a : String) (l : List String)
    (hl : List.Chain' (fun x y => pyLe x y = true) l) :
    List.Chain' (fun x y => pyLe x y = true) (insertSorted a l) := by
  induction l with
  | nil => simp [insertSorted]
  | cons b bs ih =>
    unfold insertSorted
    split
    · rename_i hab
      exact List.chain'_cons.mpr ⟨hab, hl⟩
    · rename_i hab
      have hba : pyLe b a = true := by
        rcases pyLe_total a b with h | h
        · exact absurd h hab
        · exact h
      have htail : List.Chain' (fun x y => pyLe x y = true) bs := hl.tail
      have ih' := ih htail
      refine List.chain'_cons'.mpr ⟨?_, ih'⟩
      intro y hy
      cases bs with
      | nil =>
        simp [insertSorted] at hy
        exact hy ▸ hba
      | cons c cs =>
        unfold insertSorted at hy
        split at hy
        · simp only [List.head?_cons, Option.mem_def, Option.some.injEq] at hy
          rw [← hy]
          exact hba
        · simp only [List.head?_cons, Option.mem_def, Option.some.injEq] at hy
          rw [← hy]
          exact (List.chain'_cons.mp hl).1

theorem pysorted_chain (l : List String) :
    List.Chain' (fun x y => pyLe x y = true) (pysorted l) := by
  induction l with
  | nil => simp [pysorted]
  | cons a as ih => exact chain'_insertSorted a _ ih

theorem getPaths_dirs_facts (fs : FS) (dir : String) (skip : List String) (d : String)
    (hd : d ∈ (getPaths fs dir skip).1) :
    pyStartswith (basename d) "." = false ∧ skip.contains d = false := by
  unfold getPaths at hd
  dsimp only at hd
  have hd' := mem_pysorted.mp hd
  have h := List.of_mem_filter hd'
  simp only [Bool.and_eq_true, Bool.not_eq_true'] at h
  exact h

theorem getPaths_files_facts (fs : FS) (dir : String) (skip : List String) (f : String)
    (hf : f ∈ (getPaths fs dir skip).2) :
    pyStartswith (basename f) "." = false ∧ skip.contains f = false := by
  unfold getPaths at hf
  dsimp only at hf
  have hf' := mem_pysorted.mp hf
  have h1 := List.of_mem_filter hf'
  have h2 := List.mem_of_mem_filter hf'
  simp only [Bool.not_eq_true'] at h1
  refine ⟨?_, h1⟩
  unfold providerLs at h2
  split at h2
  · cases h2
  · unfold scanPath at h2
    dsimp only at h2
    have h3 := List.of_mem_filter h2
    simp only [Bool.and_eq_true] at h3
    exact pyFnmatch_nodot _ h3.2

/-- Claim C7: tree expansion respects the depth cap — a directory exceeding
the cap (`max_depth=0` meaning unlimited) expands to no children, every
produced node is a folder or a file, a folder node is marked disabled exactly
by the depth-cap test on its path, file nodes are leaves, folder children are
unexpanded exactly when the remaining depth budget is zero, dotfiles and
skipped ids are filtered out, the listing is sorted (dirs and files
independently), and in the concrete scenario with `max_depth=1` over `/data`
containing `sub/` (which contains `deep/` and a file) the tree stops at
`sub`, which is disabled with no children, and `deep` is absent. -/
theorem tree_depth_cap :
    (∀ (fs : FS) (md : Nat) (root txt dir : String) (depth : Nat) (skip : List String),
      exceedMaxDepth md root dir = true → getChildren fs md root txt dir depth skip = []) ∧
    (∀ (fs : FS) (md : Nat) (root txt dir : String) (depth : Nat) (skip : List String)
      (n : TreeNode), n ∈ getChildren fs md root txt dir depth skip →
      (n.typ = "folder" ∨ n.typ = "file") ∧
      (n.typ = "folder" → n.disabled = exceedMaxDepth md root n.nid) ∧
      (n.typ = "file" → n.children = none ∧ n.disabled = false) ∧
      (n.typ = "folder" → (n.children = none ↔ depth = 0)) ∧
      pyStartswith (basename n.nid) "." = false ∧
      skip.contains n.nid = false) ∧
    (∀ (fs : FS) (dir : String) (skip : List String),
      List.Chain' (fun x y => pyLe x y = true) (getPaths fs dir skip).1 ∧
      List.Chain' (fun x y => pyLe x y = true) (getPaths fs dir skip).2) ∧
    setDataFromDirectory fsTree id 1 "/data" =
      [TreeNode.node "/data" "data" "" "folder" false
        (some [TreeNode.node "/data/sub" "sub" "/data" "folder" true (some [])])] := by
  refine ⟨?_, ?_, ?_, ?_⟩
  · intro fs md root txt dir depth skip hex
    unfold getChildren
    rw [if_pos hex]
  · intro fs md root txt dir depth skip n hn
    unfold getChildren at hn
    split at hn
    · cases hn
    · dsimp only at hn
      rcases List.mem_append.mp hn with h | h
      · obtain ⟨subdir, hsub, hnode⟩ := List.mem_map.mp h
        have hfacts := getPaths_dirs_facts fs dir skip subdir hsub
        rw [← hnode]
        refine ⟨Or.inl rfl, fun _ => rfl, fun hf => by simp [TreeNode.typ] at hf,
          fun _ => ?_, hfacts.1, hfacts.2⟩
        cases depth with
        | zero => simp [TreeNode.children]
        | succ d =>
          simp only [TreeNode.children]
          constructor
          · intro hh
            exact absurd hh (by simp)
          · intro hh
            exact absurd hh (by simp)
      · obtain ⟨subfile, hsub, hnode⟩ := List.mem_map.mp h
        have hfacts := getPaths_files_facts fs dir skip subfile hsub
        rw [← hnode]
        exact ⟨Or.inr rfl, fun hf => by simp [TreeNode.typ] at hf, fun _ => ⟨rfl, rfl⟩,
          fun hf => by simp [TreeNode.typ] at hf, hfacts.1, hfacts.2⟩
  · intro fs dir skip
    unfold getPaths
    dsimp only
    exact ⟨pysorted_chain _, pysorted_chain _⟩
  · rfl

/-- Witness for C7: expanding `/data/sub` at exceeded depth yields no
children, and the produced node for `sub` carries the disabled mark computed
by the depth-cap test. -/
theorem tree_depth_cap_witness :
    getChildren fsTree 1 "/data" "sub" "/data/sub" 0 [] = [] ∧
    (TreeNode.node "/data/sub" "sub" "/data" "folder" true (some [])).disabled =
      exceedMaxDepth 1 "/data" "/data/sub" := by
  constructor
  · exact tree_depth_cap.1 fsTree 1 "/data" "sub" "/data/sub" 0 [] (by decide)
  · have hmem : (TreeNode.node "/data/sub" "sub" "/data" "folder" true (some [])) ∈
        getChildren fsTree 1 "/data" "data" "/data" 1 [] := by
      show _ ∈ ([TreeNode.node "/data/sub" "sub" "/data" "folder" true (some [])] : List TreeNode)
      exact List.mem_singleton.mpr rfl
    exact ((tree_depth_cap.2.1 fsTree 1 "/data" "data" "/data" 1 []
      (TreeNode.node "/data/sub" "sub" "/data" "folder" true (some [])) hmem).2.1) rfl

/-! ## Claim C2: the history invariant -/

/-- Counterexample to C2 as stated: starting at `/r`, navigating to `/r/b`,
going back, and then navigating to `/r/c` pushes `/r/c` on top of the
remembered forward history without truncating it, so the position index
points at `/r/b` while the current directory is `/r/c` — the current
directory no longer equals `history[position]`. -/
theorem history_invariant_counterexample :
    (run ctxNav (initState ctxNav "/r")
        [NavAction.navigateTo "/r/b", NavAction.back, NavAction.navigateTo "/r/c"]).cwd ≠
      pyIndex
        (run ctxNav (initState ctxNav "/r")
          [NavAction.navigateTo "/r/b", NavAction.back, NavAction.navigateTo "/r/c"]).stack
        (run ctxNav (initState ctxNav "/r")
          [NavAction.navigateTo "/r/b", NavAction.back, NavAction.navigateTo "/r/c"]).position := by
  decide

/-- The navigation invariant of claim C2: the position indexes the history,
the current directory is the history entry at the position, the forward
button is disabled exactly at the top of the history, the back button
exactly at the bottom, and the history entries and the directory input hold
normalised, root-prefixed, existing directories. -/
structure Inv (c : Ctx) (s : WState) : Prop where
  posLB : 0 ≤ s.position
  posUB : s.position < (s.stack.length : Int)
  cwdEq : s.cwd = pyIndex s.stack s.position
  fwdIff : s.forwardDisabled = true ↔ s.position = (s.stack.length : Int) - 1
  backIff : s.backDisabled = true ↔ s.position ≤ 0
  stackGood : ∀ q ∈ s.stack, c.fs.isdir q = true ∧ c.normalize q = q ∧
    pyStartswith q c.rootDirectory = true
  dvGood : c.normalize s.directoryValue = s.directoryValue ∧
    pyStartswith s.directoryValue c.rootDirectory = true

/-- The proviso of the amended claim: a fresh navigation only happens while
the position is at the top of the history (back/forward are unrestricted). -/
def Allowed (s : WState) : NavAction → Prop
  | .navigateTo _ => s.position = (s.stack.length : Int) - 1
  | .back => True
  | .forward => True

/-- A run of interactions each allowed in the state it fires from. -/
inductive AllowedRun (c : Ctx) : WState → List NavAction → Prop
  | nil (s : WState) : AllowedRun c s []
  | cons (s : WState) (a : NavAction) (as : List NavAction) :
      Allowed s a → AllowedRun c (step c s a) as → AllowedRun c s (a :: as)

theorem pyIndex_nonneg (l : List String) (i : Int) (h0 : 0 ≤ i) :
    pyIndex l i = l.getD i.toNat "" := by
  unfold pyIndex
  rw [if_pos h0]

theorem pyIndex_append_self (l : List String) (a : String) :
    pyIndex (l ++ [a]) (l.length : Int) = a := by
  rw [pyIndex_nonneg _ _ (Int.ofNat_nonneg _), Int.toNat_natCast,
    List.getD_eq_getElem?_getD, List.getElem?_concat_length]
  rfl

theorem getLast_getD_eq_pyIndex (l : List String) (h : l ≠ []) :
    l.getLast?.getD "" = pyIndex l ((l.length : Int) - 1) := by
  have hlen : 1 ≤ l.length := List.length_pos.mpr h
  rw [pyIndex_nonneg _ _ (by omega)]
  have ht : ((l.length : Int) - 1).toNat = l.length - 1 := by omega
  rw [ht, List.getLast?_eq_getElem?, List.getD_eq_getElem?_getD]

theorem pyIndex_mem (l : List String) (i : Int) (h0 : 0 ≤ i)
    (h1 : i < (l.length : Int)) : pyIndex l i ∈ l := by
  rw [pyIndex_nonneg _ _ h0]
  have hlt : i.toNat < l.length := by omega
  rw [List.getD_eq_getElem?_getD, List.getElem?_eq_getElem hlt]
  exact List.getElem_mem hlt

theorem dirChangeFuel_stable (c : Ctx) (n : Nat) (s : WState)
    (hst : c.fullpath s.directoryValue = s.directoryValue)
    (hpre : pyStartswith s.directoryValue c.rootDirectory = true) :
    dirChangeFuel c (n + 1) s = { s with goDisabled := (s.directoryValue = s.cwd) } := by
  unfold dirChangeFuel
  dsimp only
  rw [hst]
  rw [if_neg (by rw [hpre]; decide), if_neg (fun h => h rfl)]

theorem dirChange_stable (c : Ctx) (s : WState)
    (hst : c.fullpath s.directoryValue = s.directoryValue)
    (hpre : pyStartswith s.directoryValue c.rootDirectory = true) :
    dirChange c s = { s with goDisabled := (s.directoryValue = s.cwd) } :=
  dirChangeFuel_stable c 3 s hst hpre

theorem dirChange_renorm (c : Ctx) (s : WState)
    (hfpn : ∀ p, c.fullpath p = c.normalize p)
    (hidem : ∀ p, c.normalize (c.normalize p) = c.normalize p)
    (hpre : pyStartswith (c.fullpath s.directoryValue) c.rootDirectory = true)
    (hst : c.fullpath s.directoryValue ≠ s.directoryValue) :
    (dirChange c s).directoryValue = c.fullpath s.directoryValue := by
  show (dirChangeFuel c 4 s).directoryValue = _
  unfold dirChangeFuel
  dsimp only
  rw [if_neg (by rw [hpre]; decide), if_pos hst]
  have hst2 : c.fullpath (c.fullpath s.directoryValue) = c.fullpath s.directoryValue := by
    rw [hfpn, hfpn]
    exact hidem _
  have h := dirChangeFuel_stable c 2 { s with directoryValue := c.fullpath s.directoryValue }
    (by dsimp only; exact hst2) (by dsimp only; exact hpre)
  rw [h]

theorem dirChange_dvGood (c : Ctx)
    (hfpn : ∀ p, c.fullpath p = c.normalize p)
    (hidem : ∀ p, c.normalize (c.normalize p) = c.normalize p)
    (hroot : c.normalize c.rootDirectory = c.rootDirectory)
    (s : WState) :
    c.normalize (dirChange c s).directoryValue = (dirChange c s).directoryValue ∧
    pyStartswith (dirChange c s).directoryValue c.rootDirectory = true := by
  by_cases hpre : pyStartswith (c.fullpath s.directoryValue) c.rootDirectory = false
  · rw [dirChange_clamp c s (by rw [hfpn]; exact hroot) hpre]
    exact ⟨hroot, pyStartswith_refl _⟩
  · have hpre' : pyStartswith (c.fullpath s.directoryValue) c.rootDirectory = true := by
      cases h : pyStartswith (c.fullpath s.directoryValue) c.rootDirectory
      · exact absurd h hpre
      · rfl
    by_cases hst : c.fullpath s.directoryValue = s.directoryValue
    · rw [dirChange_stable c s hst (hst ▸ hpre')]
      refine ⟨?_, hst ▸ hpre'⟩
      show c.normalize s.directoryValue = s.directoryValue
      rw [← hst, hfpn]
      exact hidem _
    · rw [dirChange_renorm c s hfpn hidem hpre' hst]
      refine ⟨?_, hpre'⟩
      rw [hfpn]
      exact hidem _

theorem listingTail_fields (c : Ctx) (r : Bool) (p : String) (s : WState) :
    (listingTail c r p s).forwardDisabled =
      (if s.position = (s.stack.length : Int) - 1 then true else s.forwardDisabled) ∧
    (listingTail c r p s).backDisabled =
      (if 0 ≤ s.position ∧ 1 < s.stack.length then false else s.backDisabled) := by
  unfold listingTail
  dsimp only
  split <;> split <;> split <;> exact ⟨rfl, rfl⟩

theorem updateFiles_none_eq (c : Ctx) (s : WState)
    (hst : c.normalize s.directoryValue = s.directoryValue)
    (hd : c.fs.isdir s.directoryValue = true) :
    updateFiles c none false s = listingTail c false s.directoryValue s := by
  unfold updateFiles
  dsimp only
  rw [hst]
  rw [if_neg (by decide), if_neg (by rw [hd]; decide),
    if_neg (fun h => h.1 rfl)]
  rfl

theorem updateFiles_event_eq (c : Ctx) (event : Option Trigger) (s : WState)
    (hnr : event ≠ some Trigger.reload) (hnn : event ≠ none)
    (hst : c.normalize s.directoryValue = s.directoryValue)
    (hd : c.fs.isdir s.directoryValue = true) :
    updateFiles c event false s =
      (if s.stack = [] ∨ s.directoryValue ≠ s.stack.getLast?.getD "" then
        listingTail c false s.directoryValue
          { s with stack := s.stack ++ [s.directoryValue], position := s.position + 1 }
      else listingTail c false s.directoryValue s) := by
  unfold updateFiles
  dsimp only
  rw [hst]
  rw [if_neg (by simpa using hnr), if_neg (by rw [hd]; decide)]
  have hb : decide (event = some Trigger.reload) = false := decide_eq_false hnr
  by_cases hc : s.stack = [] ∨ s.directoryValue ≠ s.stack.getLast?.getD ""
  · rw [if_pos ⟨hnn, hc⟩, if_pos hc, hb]
    rfl
  · rw [if_neg (fun h => hc h.2), if_neg hc, hb]
    rfl

theorem updateFiles_invalid_eq (c : Ctx) (event : Option Trigger) (s : WState)
    (hnr : event ≠ some Trigger.reload)
    (hst : c.normalize s.directoryValue = s.directoryValue)
    (hd : c.fs.isdir s.directoryValue = false) :
    updateFiles c event false s =
      { s with options := [(invalidMsg, invalidMsg)], selectorDisabled := true } := by
  unfold updateFiles
  dsimp only
  rw [hst]
  rw [if_neg (by simpa using hnr), if_pos hd]

theorem updateFiles_go_preserves (c : Ctx) (event : Option Trigger)
    (hnr : event ≠ some Trigger.reload) (hnn : event ≠ none)
    (s : WState) (hInv : Inv c s)
    (hTop : s.position = (s.stack.length : Int) - 1) :
    Inv c (updateFiles c event false s) := by
  have hLB := hInv.posLB
  have hUB := hInv.posUB
  by_cases hd : c.fs.isdir s.directoryValue = true
  · rw [updateFiles_event_eq c event s hnr hnn hInv.dvGood.1 hd]
    by_cases hc : s.stack = [] ∨ s.directoryValue ≠ s.stack.getLast?.getD ""
    · rw [if_pos hc]
      have hfr := listingTail_frame c false s.directoryValue
        { s with stack := s.stack ++ [s.directoryValue], position := s.position + 1 }
      have hfl := listingTail_fields c false s.directoryValue
        { s with stack := s.stack ++ [s.directoryValue], position := s.position + 1 }
      have hlen : ((s.stack ++ [s.directoryValue]).length : Int) = (s.stack.length : Int) + 1 := by
        simp
      refine ⟨?_, ?_, ?_, ?_, ?_, ?_, ?_⟩
      · rw [hfr.2.1]
        show 0 ≤ s.position + 1
        omega
      · rw [hfr.2.1, hfr.1]
        show s.position + 1 < ((s.stack ++ [s.directoryValue]).length : Int)
        rw [hlen]
        omega
      · rw [hfr.2.2.1, hfr.1, hfr.2.1]
        show s.directoryValue = pyIndex (s.stack ++ [s.directoryValue]) (s.position + 1)
        have hp1 : s.position + 1 = (s.stack.length : Int) := by omega
        rw [hp1, pyIndex_append_self]
      · rw [hfl.1, hfr.1, hfr.2.1]
        show (if s.position + 1 = ((s.stack ++ [s.directoryValue]).length : Int) - 1 then true
            else s.forwardDisabled) = true ↔
          s.position + 1 = ((s.stack ++ [s.directoryValue]).length : Int) - 1
        rw [if_pos (by rw [hlen]; omega)]
        constructor
        · intro _
          rw [hlen]
          omega
        · intro _
          rfl
      · rw [hfl.2, hfr.2.1]
        show (if 0 ≤ s.position + 1 ∧ 1 < (s.stack ++ [s.directoryValue]).length then false
            else s.backDisabled) = true ↔ s.position + 1 ≤ 0
        have hsl : 1 ≤ s.stack.length := by omega
        rw [if_pos ⟨by omega, by simp; omega⟩]
        constructor
        · intro h
          exact absurd h (by decide)
        · intro h
          omega
      · rw [hfr.1]
        intro q hq
        rcases List.mem_append.mp hq with h | h
        · exact hInv.stackGood q h
        · simp only [List.mem_singleton] at h
          rw [h]
          exact ⟨hd, hInv.dvGood.1, hInv.dvGood.2⟩
      · rw [hfr.2.2.2.2]
        exact hInv.dvGood
    · rw [if_neg hc]
      push_neg at hc
      have hfr := listingTail_frame c false s.directoryValue s
      have hfl := listingTail_fields c false s.directoryValue s
      have hnil : s.stack ≠ [] := hc.1
      have hlast : s.directoryValue = s.stack.getLast?.getD "" := hc.2
      refine ⟨?_, ?_, ?_, ?_, ?_, ?_, ?_⟩
      · rw [hfr.2.1]
        exact hLB
      · rw [hfr.2.1, hfr.1]
        exact hUB
      · rw [hfr.2.2.1, hfr.1, hfr.2.1]
        rw [hlast, getLast_getD_eq_pyIndex _ hnil, ← hTop]
      · rw [hfl.1, hfr.1, hfr.2.1]
        rw [if_pos hTop]
        exact ⟨fun _ => hTop, fun _ => rfl⟩
      · rw [hfl.2, hfr.2.1]
        by_cases hbig : 1 < s.stack.length
        · rw [if_pos ⟨hLB, hbig⟩]
          constructor
          · intro h
            exact absurd h (by decide)
          · intro h
            omega
        · rw [if_neg (fun h => hbig h.2)]
          exact hInv.backIff
      · rw [hfr.1]
        exact hInv.stackGood
      · rw [hfr.2.2.2.2]
        exact hInv.dvGood
  · have hd' : c.fs.isdir s.directoryValue = false := by
      cases h : c.fs.isdir s.directoryValue
      · rfl
      · exact absurd h hd
    rw [updateFiles_invalid_eq c event s hnr hInv.dvGood.1 hd']
    exact ⟨hInv.posLB, hInv.posUB, hInv.cwdEq, hInv.fwdIff, hInv.backIff,
      hInv.stackGood, hInv.dvGood⟩

theorem navigate_preserves (c : Ctx)
    (hfpn : ∀ p, c.fullpath p = c.normalize p)
    (hidem : ∀ p, c.normalize (c.normalize p) = c.normalize p)
    (hroot : c.normalize c.rootDirectory = c.rootDirectory)
    (s : WState) (p : String) (hInv : Inv c s)
    (hTop : s.position = (s.stack.length : Int) - 1) :
    Inv c (navigate c p s) := by
  unfold navigate
  dsimp only
  by_cases hpd : p ≠ s.directoryValue
  · rw [if_pos hpd]
    have hfr := dirChange_frame c { s with directoryValue := p }
    have hdv := dirChange_dvGood c hfpn hidem hroot { s with directoryValue := p }
    have hInv1 : Inv c (dirChange c { s with directoryValue := p }) := by
      refine ⟨?_, ?_, ?_, ?_, ?_, ?_, hdv⟩
      · rw [hfr.2.1]
        exact hInv.posLB
      · rw [hfr.2.1, hfr.1]
        exact hInv.posUB
      · rw [hfr.2.2.1, hfr.1, hfr.2.1]
        exact hInv.cwdEq
      · rw [hfr.2.2.2.2.1, hfr.2.1, hfr.1]
        exact hInv.fwdIff
      · rw [hfr.2.2.2.1, hfr.2.1]
        exact hInv.backIff
      · rw [hfr.1]
        exact hInv.stackGood
    split
    · exact hInv1
    · refine updateFiles_go_preserves c (some Trigger.go) (by decide) (by decide) _ hInv1 ?_
      rw [hfr.2.1, hfr.1]
      exact hTop
  · rw [if_neg hpd]
    split
    · exact hInv
    · exact updateFiles_go_preserves c (some Trigger.go) (by decide) (by decide) s hInv hTop

theorem goBack_preserves (c : Ctx)
    (hfpn : ∀ p, c.fullpath p = c.normalize p)
    (s : WState) (hInv : Inv c s) (hguard : s.backDisabled = false) :
    Inv c (goBack c s) := by
  have hLB := hInv.posLB
  have hUB := hInv.posUB
  have hpos1 : 1 ≤ s.position := by
    by_contra hlt
    have : s.position ≤ 0 := by omega
    have hb := hInv.backIff.mpr this
    rw [hguard] at hb
    exact absurd hb (by decide)
  have hlen2 : 1 < s.stack.length := by omega
  have htm : pyIndex s.stack (s.position - 1) ∈ s.stack :=
    pyIndex_mem s.stack (s.position - 1) (by omega) (by omega)
  have hstk := hInv.stackGood _ htm
  unfold goBack
  dsimp only
  have hmain : ∀ sB : WState, sB.directoryValue = pyIndex s.stack (s.position - 1) →
      sB.stack = s.stack → sB.position = s.position - 1 →
      Inv c (if (listingTail c false sB.directoryValue sB).position = 0 then
        { listingTail c false sB.directoryValue sB with
            forwardDisabled := false, backDisabled := true }
      else { listingTail c false sB.directoryValue sB with forwardDisabled := false }) := by
    intro sB hdv hstack hpos
    have hfr := listingTail_frame c false sB.directoryValue sB
    have hfl := listingTail_fields c false sB.directoryValue sB
    have hback : (listingTail c false sB.directoryValue sB).backDisabled = false := by
      rw [hfl.2, if_pos ⟨by rw [hpos]; omega, by rw [hstack]; exact hlen2⟩]
    split
    · rename_i hzero
      rw [hfr.2.1, hpos] at hzero
      refine ⟨?_, ?_, ?_, ?_, ?_, ?_, ?_⟩
      · show 0 ≤ (listingTail c false sB.directoryValue sB).position
        rw [hfr.2.1, hpos]
        omega
      · show (listingTail c false sB.directoryValue sB).position <
          (((listingTail c false sB.directoryValue sB).stack).length : Int)
        rw [hfr.2.1, hfr.1, hpos, hstack]
        omega
      · show (listingTail c false sB.directoryValue sB).cwd = _
        rw [hfr.2.2.1, hfr.1, hfr.2.1, hpos, hstack, hdv]
      · show (false : Bool) = true ↔ _
        rw [hfr.2.1, hfr.1, hpos, hstack]
        constructor
        · intro h
          exact absurd h (by decide)
        · intro h
          omega
      · show (true : Bool) = true ↔ _
        rw [hfr.2.1, hpos, hzero]
        simp
      · show ∀ q ∈ (listingTail c false sB.directoryValue sB).stack, _
        rw [hfr.1, hstack]
        exact hInv.stackGood
      · show c.normalize (listingTail c false sB.directoryValue sB).directoryValue = _ ∧ _
        rw [hfr.2.2.2.2, hdv]
        exact ⟨hstk.2.1, hstk.2.2⟩
    · rename_i hzero
      rw [hfr.2.1, hpos] at hzero
      refine ⟨?_, ?_, ?_, ?_, ?_, ?_, ?_⟩
      · show 0 ≤ (listingTail c false sB.directoryValue sB).position
        rw [hfr.2.1, hpos]
        omega
      · show (listingTail c false sB.directoryValue sB).position <
          (((listingTail c false sB.directoryValue sB).stack).length : Int)
        rw [hfr.2.1, hfr.1, hpos, hstack]
        omega
      · show (listingTail c false sB.directoryValue sB).cwd = _
        rw [hfr.2.2.1, hfr.1, hfr.2.1, hpos, hstack, hdv]
      · show (false : Bool) = true ↔ _
        rw [hfr.2.1, hfr.1, hpos, hstack]
        constructor
        · intro h
          exact absurd h (by decide)
        · intro h
          omega
      · show (listingTail c false sB.directoryValue sB).backDisabled = true ↔ _
        rw [hback, hfr.2.1, hpos]
        constructor
        · intro h
          exact absurd h (by decide)
        · intro h
          omega
      · show ∀ q ∈ (listingTail c false sB.directoryValue sB).stack, _
        rw [hfr.1, hstack]
        exact hInv.stackGood
      · show c.normalize (listingTail c false sB.directoryValue sB).directoryValue = _ ∧ _
        rw [hfr.2.2.2.2, hdv]
        exact ⟨hstk.2.1, hstk.2.2⟩
  by_cases htd : pyIndex s.stack (s.position - 1) ≠ s.directoryValue
  · rw [if_pos htd]
    rw [dirChange_stable c
      { s with position := s.position - 1,
               directoryValue := pyIndex s.stack (s.position - 1) }
      (by rw [hfpn]; exact hstk.2.1) hstk.2.2]
    rw [updateFiles_none_eq c _ hstk.2.1 hstk.1]
    exact hmain _ rfl rfl rfl
  · rw [if_neg htd]
    push_neg at htd
    have hst' : c.normalize ({ s with position := s.position - 1 } : WState).directoryValue =
        ({ s with position := s.position - 1 } : WState).directoryValue := hInv.dvGood.1
    have hd' : c.fs.isdir ({ s with position := s.position - 1 } : WState).directoryValue = true := by
      show c.fs.isdir s.directoryValue = true
      rw [← htd]
      exact hstk.1
    rw [updateFiles_none_eq c _ hst' hd']
    exact hmain _ htd.symm rfl rfl

theorem goForward_preserves (c : Ctx)
    (hfpn : ∀ p, c.fullpath p = c.normalize p)
    (s : WState) (hInv : Inv c s) (hguard : s.forwardDisabled = false) :
    Inv c (goForward c s) := by
  have hLB := hInv.posLB
  have hUB := hInv.posUB
  have hnottop : s.position ≠ (s.stack.length : Int) - 1 := by
    intro h
    have hb := hInv.fwdIff.mpr h
    rw [hguard] at hb
    exact absurd hb (by decide)
  have hposlt : s.position + 1 < (s.stack.length : Int) := by omega
  have hlen2 : 1 < s.stack.length := by omega
  have htm : pyIndex s.stack (s.position + 1) ∈ s.stack :=
    pyIndex_mem s.stack (s.position + 1) (by omega) (by omega)
  have hstk := hInv.stackGood _ htm
  unfold goForward
  dsimp only
  have hmain : ∀ sB : WState, sB.directoryValue = pyIndex s.stack (s.position + 1) →
      sB.stack = s.stack → sB.position = s.position + 1 →
      sB.forwardDisabled = false →
      Inv c (listingTail c false sB.directoryValue sB) := by
    intro sB hdv hstack hpos hfwd
    have hfr := listingTail_frame c false sB.directoryValue sB
    have hfl := listingTail_fields c false sB.directoryValue sB
    refine ⟨?_, ?_, ?_, ?_, ?_, ?_, ?_⟩
    · rw [hfr.2.1, hpos]
      omega
    · rw [hfr.2.1, hfr.1, hpos, hstack]
      omega
    · rw [hfr.2.2.1, hfr.1, hfr.2.1, hpos, hstack, hdv]
    · rw [hfl.1, hfr.1, hfr.2.1, hpos, hstack, hfwd]
      by_cases htop : s.position + 1 = (s.stack.length : Int) - 1
      · rw [if_pos htop]
        exact ⟨fun _ => htop, fun _ => rfl⟩
      · rw [if_neg htop]
        constructor
        · intro h
          exact absurd h (by decide)
        · intro h
          exact absurd h htop
    · rw [hfl.2, hfr.2.1, hpos]
      rw [if_pos ⟨by omega, by rw [hstack]; exact hlen2⟩]
      constructor
      · intro h
        exact absurd h (by decide)
      · intro h
        omega
    · rw [hfr.1, hstack]
      exact hInv.stackGood
    · rw [hfr.2.2.2.2, hdv]
      exact ⟨hstk.2.1, hstk.2.2⟩
  by_cases htd : pyIndex s.stack (s.position + 1) ≠ s.directoryValue
  · rw [if_pos htd]
    rw [dirChange_stable c
      { s with position := s.position + 1,
               directoryValue := pyIndex s.stack (s.position + 1) }
      (by rw [hfpn]; exact hstk.2.1) hstk.2.2]
    rw [updateFiles_none_eq c _ hstk.2.1 hstk.1]
    exact hmain _ rfl rfl rfl hguard
  · rw [if_neg htd]
    push_neg at htd
    have hst' : c.normalize ({ s with position := s.position + 1 } : WState).directoryValue =
        ({ s with position := s.position + 1 } : WState).directoryValue := hInv.dvGood.1
    have hd' : c.fs.isdir ({ s with position := s.position + 1 } : WState).directoryValue = true := by
      show c.fs.isdir s.directoryValue = true
      rw [← htd]
      exact hstk.1
    rw [updateFiles_none_eq c _ hst' hd']
    exact hmain _ htd.symm rfl rfl hguard

theorem initState_inv (c : Ctx)
    (hidem : ∀ p, c.normalize (c.normalize p) = c.normalize p)
    (d : String)
    (hd : c.fs.isdir (c.normalize d) = true)
    (hpre : pyStartswith (c.normalize d) c.rootDirectory = true) :
    Inv c (initState c d) := by
  unfold initState
  dsimp only
  rw [updateFiles_event_eq c (some Trigger.initial) _ (by decide) (by decide)
    (by exact hidem d) (by exact hd)]
  rw [if_pos (Or.inl rfl)]
  have hmain : ∀ sB : WState, sB.directoryValue = c.normalize d →
      sB.stack = [c.normalize d] → sB.position = 0 → sB.backDisabled = true →
      Inv c (listingTail c false (c.normalize d) sB) := by
    intro sB hdv hstack hpos hback
    have hfr := listingTail_frame c false (c.normalize d) sB
    have hfl := listingTail_fields c false (c.normalize d) sB
    refine ⟨?_, ?_, ?_, ?_, ?_, ?_, ?_⟩
    · rw [hfr.2.1, hpos]
    · rw [hfr.2.1, hfr.1, hpos, hstack]
      simp
    · rw [hfr.2.2.1, hfr.1, hfr.2.1, hpos, hstack]
      rfl
    · rw [hfl.1, hfr.1, hfr.2.1, hpos, hstack]
      rw [if_pos (by simp)]
      exact ⟨fun _ => by simp, fun _ => rfl⟩
    · rw [hfl.2, hfr.2.1, hpos, hstack]
      rw [if_neg (by simp)]
      rw [hback]
      exact ⟨fun _ => by decide, fun _ => rfl⟩
    · rw [hfr.1, hstack]
      intro q hq
      simp only [List.mem_singleton] at hq
      rw [hq]
      exact ⟨hd, hidem d, hpre⟩
    · rw [hfr.2.2.2.2, hdv]
      exact ⟨hidem d, hpre⟩
  exact hmain _ rfl rfl rfl rfl

theorem step_preserves (c : Ctx)
    (hfpn : ∀ p, c.fullpath p = c.normalize p)
    (hidem : ∀ p, c.normalize (c.normalize p) = c.normalize p)
    (hroot : c.normalize c.rootDirectory = c.rootDirectory)
    (s : WState) (a : NavAction) (hInv : Inv c s) (hA : Allowed s a) :
    Inv c (step c s a) := by
  cases a with
  | navigateTo p => exact navigate_preserves c hfpn hidem hroot s p hInv hA
  | back =>
    show Inv c (if s.backDisabled then s else goBack c s)
    split
    · exact hInv
    · rename_i h
      simp only [Bool.not_eq_true] at h
      exact goBack_preserves c hfpn s hInv h
  | forward =>
    show Inv c (if s.forwardDisabled then s else goForward c s)
    split
    · exact hInv
    · rename_i h
      simp only [Bool.not_eq_true] at h
      exact goForward_preserves c hfpn s hInv h

/-- Claim C2 (amended): provided every fresh navigation is made while the
position is at the top of the history, the navigation invariant holds
throughout: the initial state establishes it and every allowed interaction
sequence preserves it — the current directory equals `history[position]`, the
forward button is disabled exactly when the position is at the end of the
history, and the back button exactly when the position is at most zero.  A
fresh navigation performed after going back breaks the invariant (see the
counterexample), which is what the proviso excludes. -/
theorem history_invariant_amended (c : Ctx)
    (hfpn : ∀ p, c.fullpath p = c.normalize p)
    (hidem : ∀ p, c.normalize (c.normalize p) = c.normalize p)
    (hroot : c.normalize c.rootDirectory = c.rootDirectory) :
    (∀ d : String, c.fs.isdir (c.normalize d) = true →
      pyStartswith (c.normalize d) c.rootDirectory = true →
      Inv c (initState c d)) ∧
    (∀ (s : WState) (acts : List NavAction), Inv c s → AllowedRun c s acts →
      Inv c (run c s acts)) := by
  constructor
  · intro d hd hpre
    exact initState_inv c hidem d hd hpre
  · intro s acts hInv hAR
    induction hAR with
    | nil s => exact hInv
    | cons s a as hA hAR ih => exact ih (step_preserves c hfpn hidem hroot s a hInv hA)

/-- Witness for C2 (amended): the invariant holds after initialising at `/r`
and running navigate, back, forward. -/
theorem history_invariant_amended_witness :
    Inv ctxNav (run ctxNav (initState ctxNav "/r")
      [NavAction.navigateTo "/r/b", NavAction.back, NavAction.forward]) := by
  have h := history_invariant_amended ctxNav (fun _ => rfl) (fun _ => rfl) rfl
  refine h.2 _ _ (h.1 "/r" (by decide) (by decide)) ?_
  refine AllowedRun.cons _ _ _
    (show (initState ctxNav "/r").position =
      (((initState ctxNav "/r").stack).length : Int) - 1 by decide) ?_
  refine AllowedRun.cons _ _ _ trivial ?_
  refine AllowedRun.cons _ _ _ trivial ?_
  exact AllowedRun.nil _
